import Mathlib

/-!
# EM_Vis: the field-line arrow pool of `Win32_GLAppUtil.h`

A shallow embedding of `struct Model`, `struct Scene` and `OGL::Run` of
`src/Win32_GLAppUtil.h`.

Conventions of the embedding.

* `float` is an arbitrary linearly ordered field `F` with a floor function;
  the literals `0.01f`, `0.1f`, `0.5f`, ... are the exact rationals `1/100`,
  `1/10`, `1/2`, ...  Rounding, infinities and NaN are outside the embedding:
  a quotient by zero has the field value `0`, so a statement that depends on
  the value of a quotient carries the hypothesis that the divisor is not zero.
* Where rounding decides a statement, the inner loop of `Scene::Render` is
  embedded a second time, in `Binary32`, over the rationals with every
  operation rounded to the nearest binary32 value (24 significant bits, ties
  to even); the exponent is unbounded there, so it follows binary32 as long as
  no value leaves the normal range.
* `sqrtf`, `cosf`, `sinf` (C runtime) and `Quatf::Align` (Oculus SDK) are
  external; they are the fields of `Lib`, a parameter of every definition that
  calls them.  Theorems that need the defining laws of the square root assume
  `Lib.Exact`.
* `rand()` is a sequence `rand : Nat → Nat` together with the number of calls
  made so far.
* Objects created by `new Model` live in `World.heap`, indexed by address;
  `Scene.Models` holds addresses.
* `assert` is the debug-build assertion: a failed assertion aborts, which is
  the value `none`.
* OpenGL calls have no effect on `Model` or `Scene`; a call of `Model::Render`
  is recorded in `World.drawn`.
* A loop that need not end (`OGL::Run`) takes a number of iterations as fuel
  and reports `running` when the fuel is used up.
-/

namespace EMVis

/-- Modelled from the spec: the "3D vector" type `Vector3f` of the Oculus SDK
header `Extras/OVR_Math.h`, which `src/` includes but does not contain. -/
@[ext] structure Vector3 (F : Type) where
  x : F
  y : F
  z : F
deriving DecidableEq

/-- Modelled from the spec: the orientation type `Quatf` of `Extras/OVR_Math.h`
(not under `src/`); components `x y z w`. -/
@[ext] structure Quat (F : Type) where
  x : F
  y : F
  z : F
  w : F
deriving DecidableEq

/-- Modelled from the spec: the 4x4 matrix type `Matrix4f` of
`Extras/OVR_Math.h` (not under `src/`); `M i j` is row `i`, column `j`. -/
@[ext] structure Matrix4 (F : Type) where
  M : Fin 4 → Fin 4 → F

/-- External numeric functions the program calls: `sqrtf`, `cosf`, `sinf` of
the C runtime and `Quatf::Align` of `Extras/OVR_Math.h`. -/
structure Lib (F : Type) where
  sqrtf : F → F
  cosf : F → F
  sinf : F → F
  Align : Vector3 F → Vector3 F → Quat F

section Defs

variable {F : Type} [LinearOrderedField F] [FloorRing F]

/-- The square root of `E` is exact: non-negative, and squaring it gives the
argument back on non-negative arguments. -/
def Lib.Exact (E : Lib F) : Prop :=
  ∀ a : F, 0 ≤ a → 0 ≤ E.sqrtf a ∧ E.sqrtf a * E.sqrtf a = a

namespace Vector3

/-- Modelled from the spec: the default constructor `Vector3f()` of
`OVR_Math.h`, the zero vector. -/
def zero : Vector3 F := ⟨0, 0, 0⟩

/-- Modelled from the spec: `Vector3f(x, y)` of `OVR_Math.h`, the third
argument defaulting to `0`. -/
def mk2 (a b : F) : Vector3 F := ⟨a, b, 0⟩

/-- Modelled from the spec: `operator+` of `Vector3f`. -/
def add (a b : Vector3 F) : Vector3 F := ⟨a.x + b.x, a.y + b.y, a.z + b.z⟩

/-- Modelled from the spec: `operator-` of `Vector3f`. -/
def sub (a b : Vector3 F) : Vector3 F := ⟨a.x - b.x, a.y - b.y, a.z - b.z⟩

/-- Modelled from the spec: `operator*` of `Vector3f` by a scalar. -/
def scale (a : Vector3 F) (s : F) : Vector3 F := ⟨a.x * s, a.y * s, a.z * s⟩

/-- Modelled from the spec: `Vector3f::Cross`. -/
def Cross (a b : Vector3 F) : Vector3 F :=
  ⟨a.y * b.z - a.z * b.y, a.z * b.x - a.x * b.z, a.x * b.y - a.y * b.x⟩

/-- Modelled from the spec: `Vector3f::LengthSq`, the squared distance from
the origin. -/
def LengthSq (a : Vector3 F) : F := a.x * a.x + a.y * a.y + a.z * a.z

/-- Modelled from the spec: `Vector3f::Length`, `sqrt(LengthSq())`. -/
def Length (E : Lib F) (a : Vector3 F) : F := E.sqrtf a.LengthSq

/-- Modelled from the spec: `Vector3f::Normalize`: scale by the reciprocal of
the length, the zero-length vector being left as it is. -/
def Normalize (E : Lib F) (a : Vector3 F) : Vector3 F :=
  let s := a.Length E
  let s := if s ≠ 0 then 1 / s else s
  a.scale s

instance : Add (Vector3 F) := ⟨add⟩
instance : Sub (Vector3 F) := ⟨sub⟩

end Vector3

namespace Quat

/-- Modelled from the spec: the default constructor `Quatf()` of `OVR_Math.h`,
the identity rotation. -/
def identity : Quat F := ⟨0, 0, 0, 1⟩

end Quat

namespace Matrix4

/-- Modelled from the spec: the default constructor `Matrix4f()`, the identity
matrix. -/
def identity : Matrix4 F := ⟨fun i j => if i = j then 1 else 0⟩

/-- Modelled from the spec: `operator*` of `Matrix4f`, the matrix product. -/
def mul (a b : Matrix4 F) : Matrix4 F :=
  ⟨fun i j => a.M i 0 * b.M 0 j + a.M i 1 * b.M 1 j + a.M i 2 * b.M 2 j + a.M i 3 * b.M 3 j⟩

/-- Modelled from the spec: `Matrix4f::Translation(v)`: the identity with `v`
in the last column. -/
def Translation (v : Vector3 F) : Matrix4 F :=
  ⟨fun i j =>
    if j = 3 then (if i = 0 then v.x else if i = 1 then v.y else if i = 2 then v.z else 1)
    else if i = j then 1 else 0⟩

/-- Modelled from the spec: `Matrix4f::Scaling(s)`: the diagonal `s, s, s, 1`. -/
def Scaling (s : F) : Matrix4 F :=
  ⟨fun i j => if i = j then (if i = 3 then 1 else s) else 0⟩

/-- Modelled from the spec: the constructor `Matrix4f(const Quatf&)`, the
rotation matrix of a quaternion. -/
def ofQuat (q : Quat F) : Matrix4 F :=
  let ww := q.w * q.w
  let xx := q.x * q.x
  let yy := q.y * q.y
  let zz := q.z * q.z
  ⟨fun i j =>
    match i, j with
    | 0, 0 => ww + xx - yy - zz
    | 0, 1 => 2 * (q.x * q.y - q.w * q.z)
    | 0, 2 => 2 * (q.x * q.z + q.w * q.y)
    | 1, 0 => 2 * (q.x * q.y + q.w * q.z)
    | 1, 1 => ww - xx + yy - zz
    | 1, 2 => 2 * (q.y * q.z - q.w * q.x)
    | 2, 0 => 2 * (q.x * q.z - q.w * q.y)
    | 2, 1 => 2 * (q.y * q.z + q.w * q.x)
    | 2, 2 => ww - xx - yy + zz
    | 3, 3 => 1
    | _, _ => 0⟩

end Matrix4

/-- The structure `Model::Vertex`. -/
structure Vertex (F : Type) where
  Pos : Vector3 F
  Normal : Vector3 F
  C : Nat
  U : F
  V : F

/-- The structure `struct Model`.  `Vertices` and `Indices` hold the entries stored so far,
in order, so `numVertices` and `numIndices` are their lengths; `Fill` is the
index of the material; a GPU buffer is the copy of the data it was created
from, `none` being `nullptr`. -/
structure Model (F : Type) where
  Pos : Vector3 F
  Rot : Quat F
  Mat : Matrix4 F
  Scale : F
  Vertices : List (Vertex F)
  Indices : List Nat
  Fill : Nat
  vertexBuffer : Option (List (Vertex F))
  indexBuffer : Option (List Nat)
  IsVisible : Int
  IsArrow : Int

/-- One call of `Model::Render`: the address of the model and the two matrices
handed to the shader. -/
structure DrawCall (F : Type) where
  model : Nat
  combined : Matrix4 F
  viewOnly : Matrix4 F

namespace Model

/-- The counter `numVertices`. -/
def numVertices (m : Model F) : Nat := m.Vertices.length

/-- The counter `numIndices`. -/
def numIndices (m : Model F) : Nat := m.Indices.length

/-- The constructor `Model(Vector3f pos, ShaderFill * fill)`. -/
def new (pos : Vector3 F) (fill : Nat) : Model F :=
  { Pos := pos, Rot := Quat.identity, Mat := Matrix4.identity, Scale := 1,
    Vertices := [], Indices := [], Fill := fill,
    vertexBuffer := none, indexBuffer := none, IsVisible := 0, IsArrow := 0 }

/-- The method `Model::GetMatrix`: stores `Translation(Pos) * (Scaling(Scale) * Matrix4f(Rot))`
in `Mat`; the returned reference is the `Mat` of the result. -/
def GetMatrix (m : Model F) : Model F :=
  let m := { m with Mat := Matrix4.ofQuat m.Rot }
  let m := { m with Mat := (Matrix4.Scaling m.Scale).mul m.Mat }
  { m with Mat := (Matrix4.Translation m.Pos).mul m.Mat }

/-- The method `Model::Render` of the model at address `self`: both calls of `GetMatrix`
and the draw call. -/
def Render (self : Nat) (view proj : Matrix4 F) (m : Model F) : Model F × DrawCall F :=
  let m := m.GetMatrix
  let combined := (proj.mul view).mul m.Mat
  let m := m.GetMatrix
  (m, { model := self, combined := combined, viewOnly := m.Mat })

/-- The method `Model::AddVertex`: store at `Vertices[numVertices++]`, then
`assert(numVertices < 2000)`. -/
def AddVertex (m : Model F) (v : Vertex F) : Option (Model F) :=
  let m := { m with Vertices := m.Vertices ++ [v] }
  if m.numVertices < 2000 then some m else none

/-- The method `Model::AddIndex`: the argument is converted to `GLushort`, stored at
`Indices[numIndices++]`, then `assert(numVertices < 2000)` (the source tests
`numVertices` here too). -/
def AddIndex (m : Model F) (a : Nat) : Option (Model F) :=
  let m := { m with Indices := m.Indices ++ [a % 65536] }
  if m.numVertices < 2000 then some m else none

/-- The method `Model::AllocateBuffers`: both GPU buffers are created from the first
`numVertices` vertices and `numIndices` indices. -/
def AllocateBuffers (m : Model F) : Model F :=
  { m with vertexBuffer := some m.Vertices, indexBuffer := some m.Indices }

/-- The table `Vert[][2]` of `AddSolidColorBox`: position and texture
coordinates of the 24 corners. -/
def boxVert (x1 y1 z1 x2 y2 z2 : F) : List (Vector3 F × Vector3 F) :=
  [ (⟨x1, y2, z1⟩, Vector3.mk2 z1 x1), (⟨x2, y2, z1⟩, Vector3.mk2 z1 x2),
    (⟨x2, y2, z2⟩, Vector3.mk2 z2 x2), (⟨x1, y2, z2⟩, Vector3.mk2 z2 x1),
    (⟨x1, y1, z1⟩, Vector3.mk2 z1 x1), (⟨x2, y1, z1⟩, Vector3.mk2 z1 x2),
    (⟨x2, y1, z2⟩, Vector3.mk2 z2 x2), (⟨x1, y1, z2⟩, Vector3.mk2 z2 x1),
    (⟨x1, y1, z2⟩, Vector3.mk2 z2 y1), (⟨x1, y1, z1⟩, Vector3.mk2 z1 y1),
    (⟨x1, y2, z1⟩, Vector3.mk2 z1 y2), (⟨x1, y2, z2⟩, Vector3.mk2 z2 y2),
    (⟨x2, y1, z2⟩, Vector3.mk2 z2 y1), (⟨x2, y1, z1⟩, Vector3.mk2 z1 y1),
    (⟨x2, y2, z1⟩, Vector3.mk2 z1 y2), (⟨x2, y2, z2⟩, Vector3.mk2 z2 y2),
    (⟨x1, y1, z1⟩, Vector3.mk2 x1 y1), (⟨x2, y1, z1⟩, Vector3.mk2 x2 y1),
    (⟨x2, y2, z1⟩, Vector3.mk2 x2 y2), (⟨x1, y2, z1⟩, Vector3.mk2 x1 y2),
    (⟨x1, y1, z2⟩, Vector3.mk2 x1 y1), (⟨x2, y1, z2⟩, Vector3.mk2 x2 y1),
    (⟨x2, y2, z2⟩, Vector3.mk2 x2 y2), (⟨x1, y2, z2⟩, Vector3.mk2 x1 y2) ]

/-- The table `CubeIndices` of `AddSolidColorBox`. -/
def CubeIndices : List Nat :=
  [ 0, 1, 3, 3, 1, 2,
    5, 4, 6, 6, 4, 7,
    8, 9, 11, 11, 9, 10,
    13, 12, 14, 14, 12, 15,
    16, 17, 19, 19, 17, 18,
    21, 20, 22, 22, 20, 23 ]

/-- The "token lighting" of `AddSolidColorBox`: the colour `vvv.C` of a vertex
at `pos`, for the box colour `c` and the draw `r` of `rand()`. -/
def boxColor (E : Lib F) (pos : Vector3 F) (c r : Nat) : Nat :=
  let dist1 := (pos - ⟨-2, 4, -2⟩).Length E
  let dist2 := (pos - ⟨3, 4, -3⟩).Length E
  let dist3 := (pos - ⟨-4, 3, 25⟩).Length E
  let bri : F := ((r % 160 : Nat) : F)
  let light : F := bri + 192 * (13 / 20 + 8 / dist1 + 1 / dist2 + 4 / dist3)
  let B : F := (((c >>> 16) &&& 0xff : Nat) : F) * light / 255
  let G : F := (((c >>> 8) &&& 0xff : Nat) : F) * light / 255
  let R : F := (((c >>> 0) &&& 0xff : Nat) : F) * light / 255
  ((c &&& 0xff000000) +
    ((if R > 255 then 255 else ⌊R⌋₊ % 2 ^ 32) <<< 16) % 2 ^ 32 +
    ((if G > 255 then 255 else ⌊G⌋₊ % 2 ^ 32) <<< 8) % 2 ^ 32 +
    (if B > 255 then 255 else ⌊B⌋₊ % 2 ^ 32)) % 2 ^ 32

/-- The vertex loop shared by the box builders: one vertex per table row, each
drawing one `rand()`; `k` is the number of `rand()` calls made so far. -/
def addBoxVertices (E : Lib F) (rand : Nat → Nat) (c : Nat) :
    List (Vector3 F × Vector3 F) → Model F → Nat → Option (Model F × Nat)
  | [], m, k => some (m, k)
  | (p, t) :: rest, m, k =>
    match m.AddVertex { Pos := p, Normal := Vector3.zero, C := boxColor E p c (rand k),
                        U := t.x, V := t.y } with
    | none => none
    | some m => addBoxVertices E rand c rest m (k + 1)

/-- The index loop of the box builders: `AddIndex(CubeIndices[i] +
GLushort(numVertices))` for every entry of the table. -/
def addBoxIndices : List Nat → Model F → Option (Model F)
  | [], m => some m
  | ci :: rest, m =>
    match m.AddIndex (ci + m.numVertices % 65536) with
    | none => none
    | some m => addBoxIndices rest m

/-- The method `Model::AddSolidColorBox`; `c` is the `DWORD` colour, `k` the number of
`rand()` calls made so far. -/
def AddSolidColorBox (E : Lib F) (rand : Nat → Nat) (x1 y1 z1 x2 y2 z2 : F) (c : Nat)
    (m : Model F) (k : Nat) : Option (Model F × Nat) :=
  match addBoxIndices CubeIndices m with
  | none => none
  | some m => addBoxVertices E rand c (boxVert x1 y1 z1 x2 y2 z2) m k

/-- A vertex of `AddArrow`: colour `0xffffffff`. -/
def arrowVertex (pos normal : Vector3 F) (u v : F) : Vertex F :=
  { Pos := pos, Normal := normal, C := 0xffffffff, U := u, V := v }

/-- The 18 vertices `AddArrow` makes in iteration `i` of its first loop. -/
def arrowSlice (E : Lib F) (i : Nat) : List (Vertex F) :=
  let blackU : F := 0
  let blackV : F := 0
  let whiteU : F := 1 / 2
  let whiteV : F := 1 / 2
  let rot : Nat := 16
  let PI2F : F := 2 * (314159 / 100000)
  let t0 : F := PI2F * ((i + 0 : Nat) : F) / (rot : F)
  let t1 : F := PI2F * ((i + 1 : Nat) : F) / (rot : F)
  let c0 := E.cosf t0
  let s0 := E.sinf t0
  let c1 := E.cosf t1
  let s1 := E.sinf t1
  let tr : F := 1 / 10
  let hr : F := 2 / 10
  let a : Vector3 F := ⟨0, 0, 1⟩
  let b : Vector3 F := ⟨hr * c1, hr * s1, 1 / 2⟩
  let c : Vector3 F := ⟨hr * c0, hr * s0, 1 / 2⟩
  let ca := c - a
  let n := (ca.Cross (b - a)).Normalize E
  [ arrowVertex ⟨0, 0, 0⟩ ⟨0, 0, -1⟩ blackU blackV,
    arrowVertex ⟨tr * c0, tr * s0, 0⟩ ⟨0, 0, -1⟩ blackU blackV,
    arrowVertex ⟨tr * c1, tr * s1, 0⟩ ⟨0, 0, -1⟩ blackU blackV,
    arrowVertex ⟨tr * c0, tr * s0, 1 / 2⟩ ⟨c0, s0, 0⟩ blackU blackV,
    arrowVertex ⟨tr * c1, tr * s1, 0⟩ ⟨c0, s0, 0⟩ blackU blackV,
    arrowVertex ⟨tr * c0, tr * s0, 0⟩ ⟨c0, s0, 0⟩ blackU blackV,
    arrowVertex ⟨tr * c0, tr * s0, 1 / 2⟩ ⟨c0, s0, 0⟩ blackU blackV,
    arrowVertex ⟨tr * c1, tr * s1, 1 / 2⟩ ⟨c0, s0, 0⟩ blackU blackV,
    arrowVertex ⟨tr * c1, tr * s1, 0⟩ ⟨c0, s0, 0⟩ blackU blackV,
    arrowVertex ⟨hr * c0, hr * s0, 1 / 2⟩ ⟨0, 0, -1⟩ whiteU whiteV,
    arrowVertex ⟨tr * c1, tr * s1, 1 / 2⟩ ⟨0, 0, -1⟩ whiteU whiteV,
    arrowVertex ⟨tr * c0, tr * s0, 1 / 2⟩ ⟨0, 0, -1⟩ whiteU whiteV,
    arrowVertex ⟨hr * c1, hr * s1, 1 / 2⟩ ⟨0, 0, -1⟩ whiteU whiteV,
    arrowVertex ⟨tr * c1, tr * s1, 1 / 2⟩ ⟨0, 0, -1⟩ whiteU whiteV,
    arrowVertex ⟨hr * c0, hr * s0, 1 / 2⟩ ⟨0, 0, -1⟩ whiteU whiteV,
    arrowVertex a n whiteU whiteV,
    arrowVertex b n whiteU whiteV,
    arrowVertex c n whiteU whiteV ]

/-- A call of `AddVertex` for every vertex of a list, in order. -/
def addVertices : List (Vertex F) → Model F → Option (Model F)
  | [], m => some m
  | v :: rest, m =>
    match m.AddVertex v with
    | none => none
    | some m => addVertices rest m

/-- The second loop of `AddArrow`, `for (i = 0; i < numVertices; i += 3)`, run
from `i` with `fuel` evaluations of its condition left (none left: `none`);
three `AddIndex` per iteration. -/
def addTriangleIndices : Nat → Nat → Model F → Option (Model F)
  | 0, _, _ => none
  | fuel + 1, i, m =>
    if i < m.numVertices then
      match m.AddIndex (i + 0) with
      | none => none
      | some m =>
        match m.AddIndex (i + 1) with
        | none => none
        | some m =>
          match m.AddIndex (i + 2) with
          | none => none
          | some m => addTriangleIndices fuel (i + 3) m
    else some m

/-- The method `Model::AddArrow`: 16 slices of 18 vertices, then one index per vertex.
The index loop is given `numVertices + 1` units of fuel, one per evaluation of
its condition; it evaluates the condition at most `numVertices / 3 + 2` times,
and running out of fuel would be `none`. -/
def AddArrow (E : Lib F) (m : Model F) : Option (Model F) :=
  match addVertices ((List.range 16).flatMap (arrowSlice E)) m with
  | none => none
  | some m => addTriangleIndices (m.numVertices + 1) 0 m

end Model

/-- The structure `struct Scene`: the counter `numModels` and the array `Models` of model
addresses (its entries from `numModels` on are not used). -/
structure Scene where
  numModels : Nat
  Models : Nat → Nat

/-- Everything outside the `Scene` object: the models on the heap, the next
address `new` returns, the sequence `rand()` returns with the number of calls
made so far, and the `Model::Render` calls made so far, oldest first. -/
structure World (F : Type) where
  heap : Nat → Model F
  brk : Nat
  rand : Nat → Nat
  calls : Nat
  drawn : List (DrawCall F)

namespace World

/-- The expression `new Model(pos, fill)`: the new object gets the next address. -/
def new (w : World F) (pos : Vector3 F) (fill : Nat) : Nat × World F :=
  (w.brk, { w with heap := Function.update w.heap w.brk (Model.new pos fill),
                   brk := w.brk + 1 })

/-- A write through the pointer `p`. -/
def store (w : World F) (p : Nat) (m : Model F) : World F :=
  { w with heap := Function.update w.heap p m }

end World

namespace Scene

/-- The member `maxArrows`. -/
def maxArrows : Nat := 100

/-- The constructor `Scene()`: `numModels(0)`; the array is not initialised. -/
def empty (garbage : Nat → Nat) : Scene := { numModels := 0, Models := garbage }

/-- The method `Scene::Add`: `assert(numModels < 5000)`, then `Models[numModels++] = n`. -/
def Add (s : Scene) (n : Nat) : Option Scene :=
  if s.numModels < 5000 then
    some { numModels := s.numModels + 1, Models := Function.update s.Models s.numModels n }
  else none

/-- The method `Scene::randf`, as a function of the value `r` its `rand()` call returns. -/
def randf (r : Nat) : F := ((r % 1000 : Nat) : F) / 1000 - 1 / 2

/-- The local `cen` of `Scene::Render`. -/
def cen : Vector3 F := ⟨0, 0, 0⟩

/-- The local `numChg` of `Scene::Render`. -/
def numChg : Nat := 2

/-- The local array `chgPos` of `Scene::Render`: `cen - Vector3f(-2,0,0)` and
`cen - Vector3f(+2,0,0)`. -/
def chgPos (j : Nat) : Vector3 F :=
  if j = 0 then cen - ⟨-2, 0, 0⟩ else cen - ⟨2, 0, 0⟩

/-- The local array `chg` of `Scene::Render`: `{ -1.f, +1.f }`. -/
def chg (j : Nat) : F := if j = 0 then -1 else 1

/-- The local `z` of `Scene::Render`. -/
def z : Vector3 F := ⟨0, 0, 1⟩

/-- The inner loop of `Scene::Render`: `f` starts as `Vector3f()` and each
source `j` adds `r * mag` with `r = xyz - chgPos[j]`, `mag = chg[j] /
r.LengthSq()`, and `r` normalised after `mag` is taken. -/
def netField (E : Lib F) (xyz : Vector3 F) : Vector3 F :=
  (List.range numChg).foldl
    (fun f j =>
      let r := xyz - chgPos j
      let mag := chg j / r.LengthSq
      let r := r.Normalize E
      f + r.scale mag)
    Vector3.zero

/-- The branch "INTEGRATE along f" of `Scene::Render` for the model `m` at
address `self`: the new state of the model and its draw call. -/
def integrate (E : Lib F) (view proj : Matrix4 F) (self : Nat) (m : Model F) :
    Model F × DrawCall F :=
  let xyz := m.Pos
  let f := netField E xyz
  let m := { m with Pos := m.Pos + f.scale (1 / 100) }
  let m := { m with Scale := f.Length E }
  let f := f.Normalize E
  let m := { m with Rot := E.Align f z }
  let (m, d) := m.Render self view proj
  let rToChg0 := xyz - chgPos 0
  let m := if rToChg0.Length E < 1 then { m with IsVisible := 0 } else m
  let m := if xyz.Length E > 6 then { m with IsVisible := 0 } else m
  (m, d)

/-- The branch of `Scene::Render` for an arrow that is not visible: `rand k` is
the draw of the test `rand() % 1 == 0`, and the three `randf()` arguments take
the next three draws, the first for `x`; the result is the new state of the
model and the new number of `rand()` calls. -/
def spawn (E : Lib F) (rand : Nat → Nat) (k : Nat) (m : Model F) : Model F × Nat :=
  if rand k % 1 = 0 then
    let m := { m with IsVisible := 1 }
    let m := { m with Pos := ⟨randf (rand (k + 1)), randf (rand (k + 2)), randf (rand (k + 3))⟩ }
    let m := { m with Pos := m.Pos.Normalize E }
    let m := { m with Pos := m.Pos.scale (1 / 10) }
    let m := { m with Pos := m.Pos + chgPos 1 }
    (m, k + 4)
  else (m, k + 1)

/-- The body of the outer loop of `Scene::Render` for index `i`. -/
def renderStep (E : Lib F) (s : Scene) (view proj : Matrix4 F) (w : World F) (i : Nat) :
    World F :=
  let p := s.Models i
  if (w.heap p).IsArrow ≠ 0 then
    if (w.heap p).IsVisible ≠ 0 then
      let (m, d) := integrate E view proj p (w.heap p)
      { w.store p m with drawn := w.drawn ++ [d] }
    else
      let (m, k) := spawn E w.rand w.calls (w.heap p)
      { w.store p m with calls := k }
  else
    let (m, d) := (w.heap p).Render p view proj
    { w.store p m with drawn := w.drawn ++ [d] }

/-- The method `Scene::Render`: the loop body for `i = 0 .. numModels - 1`; no member of
the scene is assigned. -/
def Render (E : Lib F) (view proj : Matrix4 F) (s : Scene) (w : World F) : Scene × World F :=
  (s, (List.range s.numModels).foldl (renderStep E s view proj) w)

/-- One iteration of the first loop of `Scene::Init`: a new arrow model with
material `grid_material[4]`, hidden, added to the pool. -/
def initArrow (E : Lib F) (sw : Scene × World F) : Option (Scene × World F) :=
  let (m, w) := sw.2.new Vector3.zero 4
  match (w.heap m).AddArrow E with
  | none => none
  | some a =>
    let w := w.store m a
    let w := w.store m (w.heap m).AllocateBuffers
    let w := w.store m { w.heap m with IsVisible := 0 }
    let w := w.store m { w.heap m with IsArrow := 1 }
    match sw.1.Add m with
    | none => none
    | some s => some (s, w)

/-- A loop `for (i = 0; i < n; i++)` whose body may abort. -/
def times {α : Type} (body : α → Option α) : Nat → α → Option α
  | 0, a => some a
  | n + 1, a =>
    match body a with
    | none => none
    | some a => times body n a

/-- A call `m->AddSolidColorBox(...)` with colour `0xff808080` through the
pointer `m`. -/
def addBox (E : Lib F) (m : Nat) (x1 y1 z1 x2 y2 z2 : F) (w : World F) : Option (World F) :=
  match (w.heap m).AddSolidColorBox E w.rand x1 y1 z1 x2 y2 z2 0xff808080 w.calls with
  | none => none
  | some (a, k) => some { w.store m a with calls := k }

/-- The method `Scene::Init`: 100 arrows, then the walls, the floor and the ceiling.  The
shaders and textures are OpenGL objects; `grid_material[k]` is the number `k`. -/
def Init (E : Lib F) (_includeIntensiveGPUobject : Int) (s : Scene) (w : World F) :
    Option (Scene × World F) :=
  match times (initArrow E) maxArrows (s, w) with
  | none => none
  | some (s, w) =>
    let x1 : F := -10
    let x2 : F := 10
    let y1 : F := -10
    let y2 : F := 10
    let z1 : F := -10
    let z2 : F := 10
    let (m, w) := w.new Vector3.zero 1
    match addBox E m x1 y1 z1 (x1 - 1 / 10) y2 z2 w with
    | none => none
    | some w =>
    match addBox E m x2 y1 z1 (x2 + 1 / 10) y2 z2 w with
    | none => none
    | some w =>
    match addBox E m x1 y1 z1 x2 y2 (z1 - 1 / 10) w with
    | none => none
    | some w =>
    match addBox E m x1 y1 z2 x2 y2 (z2 + 1 / 10) w with
    | none => none
    | some w =>
    let w := w.store m (w.heap m).AllocateBuffers
    match s.Add m with
    | none => none
    | some s =>
    let (m, w) := w.new Vector3.zero 0
    match addBox E m x1 y1 z1 x2 (y1 - 1 / 10) z2 w with
    | none => none
    | some w =>
    let w := w.store m (w.heap m).AllocateBuffers
    match s.Add m with
    | none => none
    | some s =>
    let (m, w) := w.new Vector3.zero 2
    match addBox E m x1 y2 z1 x2 (y2 + 1 / 10) z2 w with
    | none => none
    | some w =>
    let w := w.store m (w.heap m).AllocateBuffers
    match s.Add m with
    | none => none
    | some s => some (s, w)

/-- The pool entries `Models[0 .. numModels-1]` are distinct objects, as
`Scene::Init` makes them (each is a fresh `new Model`). -/
def Distinct (s : Scene) : Prop :=
  ∀ i j, i < s.numModels → j < s.numModels → s.Models i = s.Models j → i = j

/-- The world at the start of iteration `i` of the loop of `Scene::Render`,
after the iterations `0 .. i-1`. -/
def before (E : Lib F) (view proj : Matrix4 F) (s : Scene) (w : World F) (i : Nat) : World F :=
  (List.range i).foldl (renderStep E s view proj) w

end Scene

/-- The spec's words: the Euclidean distance between two points, through the
square root of `E`. -/
def dist (E : Lib F) (a b : Vector3 F) : F :=
  E.sqrtf ((a.x - b.x) ^ 2 + (a.y - b.y) ^ 2 + (a.z - b.z) ^ 2)

/-- The spec's words: the inverse-square contribution at `p` of a source of
charge `q` at `c`, `(q / |p - c|^2) * (p - c) / |p - c|`. -/
def coulomb (E : Lib F) (q : F) (c p : Vector3 F) : Vector3 F :=
  ⟨q / dist E p c ^ 2 * ((p.x - c.x) / dist E p c),
   q / dist E p c ^ 2 * ((p.y - c.y) / dist E p c),
   q / dist E p c ^ 2 * ((p.z - c.z) / dist E p c)⟩

/-! ### Concrete inputs

The theorems below are instantiated on these: a library around a given square
root, a pool whose slot `i` holds the address `i`, and a heap holding the same
model at every address. -/

/-- A library with the given `sqrtf`, `cosf`, `sinf`; its `Align` returns the
half-turn about its first argument. -/
def Lib.test (sq co si : F → F) : Lib F :=
  { sqrtf := sq, cosf := co, sinf := si, Align := fun a _ => ⟨a.x, a.y, a.z, 0⟩ }

/-- A square root on the rationals, exact on squares of rationals. -/
def ratSqrt (q : ℚ) : ℚ := (Nat.sqrt q.num.toNat : ℚ) / (Nat.sqrt q.den : ℚ)

/-- The library used for inputs over the rationals. -/
def ratLib : Lib ℚ := Lib.test ratSqrt (fun _ => 1) (fun _ => 0)

/-- A pool of `n` slots, slot `i` holding the address `i`. -/
def Scene.pool (n : Nat) : Scene := { numModels := n, Models := fun i => i }

/-- An arrow model at `p`, as `Scene::Init` makes it, with the given
`IsVisible`. -/
def Model.arrowAt (p : Vector3 F) (visible : Int) : Model F :=
  { Model.new p 4 with IsVisible := visible, IsArrow := 1 }

/-- A world whose heap holds `m` at every address. -/
def World.test (m : Model F) (rand : Nat → Nat) : World F :=
  { heap := fun _ => m, brk := 1, rand := rand, calls := 0, drawn := [] }

/-- A world of three objects: a visible arrow at address 0, an inactive arrow
at address 1, and models that are not arrows elsewhere. -/
def World.mixed (rand : Nat → Nat) : World ℚ :=
  { heap := fun q =>
      if q = 0 then Model.arrowAt ⟨0, 0, 0⟩ 1
      else if q = 1 then Model.arrowAt ⟨0, 0, 0⟩ 0
      else Model.new ⟨0, 0, 0⟩ 1,
    brk := 3, rand := rand, calls := 0, drawn := [] }

/-- What one frame keeps of a model: the `IsArrow` flag, the mesh, the material
and the GPU buffers of every model, and the `Pos`, `Scale`, `Rot` and
`IsVisible` of a model that is not an arrow (`a` before, `b` after). -/
def Model.FrameKeeps (a b : Model F) : Prop :=
  b.IsArrow = a.IsArrow ∧ b.Vertices = a.Vertices ∧ b.Indices = a.Indices
    ∧ b.Fill = a.Fill ∧ b.vertexBuffer = a.vertexBuffer ∧ b.indexBuffer = a.indexBuffer
    ∧ (a.IsArrow = 0 →
        b.Pos = a.Pos ∧ b.Scale = a.Scale ∧ b.Rot = a.Rot ∧ b.IsVisible = a.IsVisible)

/-- The mesh builders change `Vertices` and `Indices` only: every other field
of `b` is that of `a`. -/
def Model.SameState (a b : Model F) : Prop :=
  b.Pos = a.Pos ∧ b.Rot = a.Rot ∧ b.Mat = a.Mat ∧ b.Scale = a.Scale ∧ b.Fill = a.Fill
    ∧ b.vertexBuffer = a.vertexBuffer ∧ b.indexBuffer = a.indexBuffer
    ∧ b.IsVisible = a.IsVisible ∧ b.IsArrow = a.IsArrow

/-- The draw call `Scene::Render` makes in iteration `i`, if any, from the
state of the model of slot `i` at the start of the call: an arrow that is not
visible is not drawn. -/
def Scene.drawOf (E : Lib F) (view proj : Matrix4 F) (s : Scene) (w : World F) (i : Nat) :
    Option (DrawCall F) :=
  if (w.heap (s.Models i)).IsArrow ≠ 0 then
    if (w.heap (s.Models i)).IsVisible ≠ 0 then
      some (Scene.integrate E view proj (s.Models i) (w.heap (s.Models i))).2
    else none
  else some ((w.heap (s.Models i)).Render (s.Models i) view proj).2

/-! ### `Model::AddColorPyramid` -/

/-- The table `Vert[][2]` of `AddColorPyramid` after "the ZJD hack to squish
the xy when z is at one side (z2)": the table itself is written out in the
source with the same 24 rows as in `AddSolidColorBox`, and the loop replaces
`x` and `y` of every position whose `z` equals `z2`. -/
def Model.pyramidVert (x1 y1 z1 x2 y2 z2 : F) : List (Vector3 F × Vector3 F) :=
  (Model.boxVert x1 y1 z1 x2 y2 z2).map fun row =>
    if row.1.z = z2 then (⟨(x2 + x1) / 2, (y2 + y1) / 2, row.1.z⟩, row.2) else row

/-- The method `Model::AddColorPyramid`: the squished table, then the index
loop and the vertex loop of `AddSolidColorBox`. -/
def Model.AddColorPyramid (E : Lib F) (rand : Nat → Nat) (x1 y1 z1 x2 y2 z2 : F) (c : Nat)
    (m : Model F) (k : Nat) : Option (Model F × Nat) :=
  match Model.addBoxIndices Model.CubeIndices m with
  | none => none
  | some m => Model.addBoxVertices E rand c (Model.pyramidVert x1 y1 z1 x2 y2 z2) m k

/-- The vertices the vertex loop of the box builders makes from the rows of a
table, the first with the draw `rand k`. -/
def Model.boxVertices (E : Lib F) (rand : Nat → Nat) (c : Nat) :
    List (Vector3 F × Vector3 F) → Nat → List (Vertex F)
  | [], _ => []
  | row :: rest, k =>
    { Pos := row.1, Normal := Vector3.zero, C := Model.boxColor E row.1 c (rand k),
      U := row.2.x, V := row.2.y } :: Model.boxVertices E rand c rest (k + 1)

/-! ### The field in binary32 arithmetic -/

namespace Binary32

/-- Rounding to the nearest integer, a tie going to the even one. -/
def roundEven (q : ℚ) : ℤ :=
  let n := Int.floor q
  let d := q - n
  if d < 1 / 2 then n
  else if 1 / 2 < d then n + 1
  else if n % 2 = 0 then n else n + 1

/-- The unit in the last place of a positive `x` with 24 significant bits:
`2 ^ (e - 23)` for `2 ^ e ≤ x < 2 ^ (e + 1)`. -/
def ulp (x : ℚ) : ℚ := (2 : ℚ) ^ (Int.log 2 x - 23)

/-- The binary32 value nearest to `x ≥ 0`: the nearest multiple of `ulp x`,
ties to even. -/
def flPos (x : ℚ) : ℚ := if x = 0 then 0 else (roundEven (x / ulp x) : ℚ) * ulp x

/-- The binary32 value nearest to `x`: the sign of `x` and the rounded
magnitude. -/
def fl (x : ℚ) : ℚ := if x < 0 then -flPos (-x) else flPos x

/-- The `float` sum: the exact sum, rounded. -/
def add (a b : ℚ) : ℚ := fl (a + b)

/-- The `float` difference: the exact difference, rounded. -/
def sub (a b : ℚ) : ℚ := fl (a - b)

/-- The `float` product: the exact product, rounded. -/
def mul (a b : ℚ) : ℚ := fl (a * b)

/-- The `float` quotient by a non-zero divisor: the exact quotient, rounded. -/
def div (a b : ℚ) : ℚ := fl (a / b)

/-- Modelled from the spec: `operator+` of `Vector3f`, in `float` arithmetic. -/
def vadd (a b : Vector3 ℚ) : Vector3 ℚ := ⟨add a.x b.x, add a.y b.y, add a.z b.z⟩

/-- Modelled from the spec: `operator-` of `Vector3f`, in `float` arithmetic. -/
def vsub (a b : Vector3 ℚ) : Vector3 ℚ := ⟨sub a.x b.x, sub a.y b.y, sub a.z b.z⟩

/-- Modelled from the spec: `operator*` of `Vector3f` by a scalar, in `float`
arithmetic. -/
def scale (a : Vector3 ℚ) (s : ℚ) : Vector3 ℚ := ⟨mul a.x s, mul a.y s, mul a.z s⟩

/-- Modelled from the spec: `Vector3f::LengthSq`, `x*x + y*y + z*z` evaluated
from the left, each operation rounded. -/
def LengthSq (a : Vector3 ℚ) : ℚ := add (add (mul a.x a.x) (mul a.y a.y)) (mul a.z a.z)

/-- Modelled from the spec: `Vector3f::Length`, `sqrt(LengthSq())`, with the
`sqrtf` of `E`. -/
def Length (E : Lib ℚ) (a : Vector3 ℚ) : ℚ := E.sqrtf (LengthSq a)

/-- Modelled from the spec: `Vector3f::Normalize`, in `float` arithmetic:
scale by the reciprocal of the length, the zero-length vector being left as it
is. -/
def Normalize (E : Lib ℚ) (a : Vector3 ℚ) : Vector3 ℚ :=
  let s := Length E a
  let s := if s ≠ 0 then div 1 s else s
  scale a s

/-- The local `cen` of `Scene::Render`. -/
def cen : Vector3 ℚ := ⟨0, 0, 0⟩

/-- The local `numChg` of `Scene::Render`. -/
def numChg : Nat := 2

/-- The local array `chgPos` of `Scene::Render`: `cen - Vector3f(-2,0,0)` and
`cen - Vector3f(+2,0,0)`, in `float` arithmetic. -/
def chgPos (j : Nat) : Vector3 ℚ :=
  if j = 0 then vsub cen ⟨-2, 0, 0⟩ else vsub cen ⟨2, 0, 0⟩

/-- The local array `chg` of `Scene::Render`: `{ -1.f, +1.f }`. -/
def chg (j : Nat) : ℚ := if j = 0 then -1 else 1

/-- The inner loop of `Scene::Render` in `float` arithmetic: `f` starts as
`Vector3f()` and each source `j` adds `r * mag` with `r = xyz - chgPos[j]`,
`mag = chg[j] / r.LengthSq()`, and `r` normalised after `mag` is taken. -/
def netField (E : Lib ℚ) (xyz : Vector3 ℚ) : Vector3 ℚ :=
  (List.range numChg).foldl
    (fun f j =>
      let r := vsub xyz (chgPos j)
      let mag := div (chg j) (LengthSq r)
      let r := Normalize E r
      vadd f (scale r mag))
    ⟨0, 0, 0⟩

end Binary32

/-! ### `OGL::Run` -/

namespace OGL

/-- What `OGL::Run` calls, in the terms of its own state `σ`: the `MainLoop`
function pointer it is given, and `HandleMessages`, which pumps the Win32
message queue and returns the member `Running`.  Each returns its `bool` and
the state it leaves. -/
structure Env (σ : Type) where
  MainLoop : Bool → σ → Bool × σ
  HandleMessages : σ → Bool × σ

/-- The calls `OGL::Run` makes, in order: `MainLoop(retryCreate)` with its
result, `HandleMessages()` with its result, `MessageBoxA(NULL, msg, caption,
MB_ICONERROR | MB_OK)`, `exit(code)` and `Sleep(ms)`. -/
inductive Event where
  | mainLoop (retryCreate result : Bool)
  | handleMessages (result : Bool)
  | messageBox (msg caption : String)
  | exit (code : Int)
  | sleep (ms : Nat)
deriving DecidableEq, Repr

/-- How a run ends: `Run` returns, the process is ended by `exit`, or the fuel
of the embedding ran out while the loop was still running. -/
inductive Outcome where
  | returned
  | exited
  | running
deriving DecidableEq, Repr

/-- The macro `VALIDATE(x, msg)`: when `x` is false, the message box and
`exit(-1)`; the `Bool` tells whether the process has exited. -/
def VALIDATE (x : Bool) (msg : String) : List Event × Bool :=
  if !x then ([Event.messageBox msg "OculusRoomTiny", Event.exit (-1)], true) else ([], false)

/-- The `while (HandleMessages())` loop of `OGL::Run`, with `fuel` iterations
at most. -/
def runLoop {σ : Type} (env : Env σ) : Nat → σ → List Event × Outcome × σ
  | 0, s => ([], Outcome.running, s)
  | fuel + 1, s =>
    let (h, s) := env.HandleMessages s
    if h then
      let (r, s) := env.MainLoop true s
      if !r then
        ([Event.handleMessages true, Event.mainLoop true false], Outcome.returned, s)
      else
        let (t, o, s) := runLoop env fuel s
        (Event.handleMessages true :: Event.mainLoop true true :: Event.sleep 10 :: t, o, s)
    else ([Event.handleMessages false], Outcome.returned, s)

/-- The method `OGL::Run`: `VALIDATE(MainLoop(false), ...)`, then the loop. -/
def Run {σ : Type} (env : Env σ) (fuel : Nat) (s : σ) : List Event × Outcome × σ :=
  let (r, s) := env.MainLoop false s
  let (t, dead) := VALIDATE r "Oculus Rift not detected."
  if dead then (Event.mainLoop false r :: t, Outcome.exited, s)
  else
    let (t', o, s) := runLoop env fuel s
    (Event.mainLoop false r :: (t ++ t'), o, s)

/-- The state at the start of iteration `n` of the loop of `OGL::Run`, when
the loop starts in `s` and runs `n` iterations: each iteration calls
`HandleMessages()` and then `MainLoop(true)`. -/
def loopState {σ : Type} (env : Env σ) : Nat → σ → σ
  | 0, s => s
  | n + 1, s => loopState env n (env.MainLoop true (env.HandleMessages s).2).2

/-- One full iteration of the loop of `OGL::Run` in the trace:
`HandleMessages()` and `MainLoop(true)` both true, then `Sleep(10)`. -/
def iteration : List Event :=
  [Event.handleMessages true, Event.mainLoop true true, Event.sleep 10]

/-- An environment for running `OGL::Run`: the state is the number of calls
made so far, `MainLoop` succeeds on its first `good` calls and
`HandleMessages` on its first `alive` calls. -/
def countdown (good alive : Nat) : Env (Nat × Nat) where
  MainLoop := fun _ s => (decide (s.1 < good), (s.1 + 1, s.2))
  HandleMessages := fun s => (decide (s.2 < alive), (s.1, s.2 + 1))

end OGL

end Defs

section Lemmas

set_option linter.unusedSectionVars false

variable {F : Type} [LinearOrderedField F]

/-! ### Vectors -/

theorem Vector3.add_def (a b : Vector3 F) :
    a + b = ⟨a.x + b.x, a.y + b.y, a.z + b.z⟩ := rfl

theorem Vector3.sub_def (a b : Vector3 F) :
    a - b = ⟨a.x - b.x, a.y - b.y, a.z - b.z⟩ := rfl

theorem Vector3.lengthSq_nonneg (a : Vector3 F) : 0 ≤ a.LengthSq := by
  unfold Vector3.LengthSq
  nlinarith [mul_self_nonneg a.x, mul_self_nonneg a.y, mul_self_nonneg a.z]

theorem Vector3.lengthSq_eq_zero {a : Vector3 F} (h : a.LengthSq = 0) : a = ⟨0, 0, 0⟩ := by
  unfold Vector3.LengthSq at h
  have hx : a.x = 0 := by
    nlinarith [mul_self_nonneg a.x, mul_self_nonneg a.y, mul_self_nonneg a.z]
  have hy : a.y = 0 := by
    nlinarith [mul_self_nonneg a.x, mul_self_nonneg a.y, mul_self_nonneg a.z]
  have hz : a.z = 0 := by
    nlinarith [mul_self_nonneg a.x, mul_self_nonneg a.y, mul_self_nonneg a.z]
  ext <;> assumption

theorem Vector3.length_mul_self {E : Lib F} (hE : E.Exact) (a : Vector3 F) :
    a.Length E * a.Length E = a.LengthSq :=
  (hE _ a.lengthSq_nonneg).2

theorem Vector3.length_ne_zero {E : Lib F} (hE : E.Exact) {a : Vector3 F}
    (ha : a ≠ ⟨0, 0, 0⟩) : a.Length E ≠ 0 := by
  intro h
  apply ha
  apply Vector3.lengthSq_eq_zero
  rw [← Vector3.length_mul_self hE, h, mul_zero]

theorem dist_eq_length (E : Lib F) (a b : Vector3 F) : dist E a b = (a - b).Length E := by
  simp only [dist, Vector3.Length, Vector3.LengthSq, Vector3.sub_def, sq]

theorem Scene.chgPos_zero : (Scene.chgPos 0 : Vector3 F) = ⟨2, 0, 0⟩ := by
  simp [Scene.chgPos, Scene.cen, Vector3.sub_def]

theorem Scene.chgPos_one : (Scene.chgPos 1 : Vector3 F) = ⟨-2, 0, 0⟩ := by
  simp [Scene.chgPos, Scene.cen, Vector3.sub_def]

theorem Scene.netField_unfold (E : Lib F) (p : Vector3 F) :
    Scene.netField E p =
      (Vector3.zero + ((p - ⟨2, 0, 0⟩).Normalize E).scale (-1 / (p - ⟨2, 0, 0⟩).LengthSq))
        + ((p - ⟨-2, 0, 0⟩).Normalize E).scale (1 / (p - ⟨-2, 0, 0⟩).LengthSq) := by
  have h : List.range Scene.numChg = [0, 1] := rfl
  simp only [Scene.netField, h, List.foldl_cons, List.foldl_nil, Scene.chgPos_zero]
  simp [Scene.chgPos, Scene.chg, Scene.cen, Vector3.sub_def]

/-- The inner loop of `Scene::Render` computes the sum of the two inverse-square
contributions. -/
theorem Scene.netField_eq_coulomb {E : Lib F} (hE : E.Exact) (p : Vector3 F)
    (h0 : p ≠ ⟨2, 0, 0⟩) (h1 : p ≠ ⟨-2, 0, 0⟩) :
    Scene.netField E p = coulomb E (-1) ⟨2, 0, 0⟩ p + coulomb E 1 ⟨-2, 0, 0⟩ p := by
  have hr0 : p - ⟨2, 0, 0⟩ ≠ (⟨0, 0, 0⟩ : Vector3 F) := by
    intro h
    apply h0
    rw [Vector3.sub_def] at h
    injection h with hx hy hz
    simp only at hx hy hz
    ext <;> simp only <;> linarith
  have hr1 : p - ⟨-2, 0, 0⟩ ≠ (⟨0, 0, 0⟩ : Vector3 F) := by
    intro h
    apply h1
    rw [Vector3.sub_def] at h
    injection h with hx hy hz
    simp only at hx hy hz
    ext <;> simp only <;> linarith
  have hd0 := Vector3.length_ne_zero hE hr0
  have hd1 := Vector3.length_ne_zero hE hr1
  have hs0 := Vector3.length_mul_self hE (p - ⟨2, 0, 0⟩)
  have hs1 := Vector3.length_mul_self hE (p - ⟨-2, 0, 0⟩)
  rw [Scene.netField_unfold]
  simp only [coulomb, dist_eq_length, Vector3.Normalize, if_pos hd0, if_pos hd1, ← hs0, ← hs1]
  simp only [Vector3.add_def, Vector3.scale, Vector3.zero, Vector3.sub_def]
  ext <;> simp only <;> field_simp <;> ring

/-! ### One model in one frame -/

theorem Model.Render_Pos (self : Nat) (view proj : Matrix4 F) (m : Model F) :
    (m.Render self view proj).1.Pos = m.Pos := rfl

theorem Scene.integrate_Pos (E : Lib F) (view proj : Matrix4 F) (self : Nat) (m : Model F) :
    (Scene.integrate E view proj self m).1.Pos
      = m.Pos + (Scene.netField E m.Pos).scale (1 / 100) := by
  unfold Scene.integrate Model.Render Model.GetMatrix
  dsimp only
  split_ifs <;> rfl

theorem Scene.integrate_Scale (E : Lib F) (view proj : Matrix4 F) (self : Nat) (m : Model F) :
    (Scene.integrate E view proj self m).1.Scale = (Scene.netField E m.Pos).Length E := by
  unfold Scene.integrate Model.Render Model.GetMatrix
  dsimp only
  split_ifs <;> rfl

theorem Scene.integrate_Rot (E : Lib F) (view proj : Matrix4 F) (self : Nat) (m : Model F) :
    (Scene.integrate E view proj self m).1.Rot
      = E.Align ((Scene.netField E m.Pos).Normalize E) Scene.z := by
  unfold Scene.integrate Model.Render Model.GetMatrix
  dsimp only
  split_ifs <;> rfl

theorem Scene.integrate_IsVisible (E : Lib F) (view proj : Matrix4 F) (self : Nat)
    (m : Model F) :
    (Scene.integrate E view proj self m).1.IsVisible
      = if (m.Pos - Scene.chgPos 0).Length E < 1 ∨ m.Pos.Length E > 6 then 0
        else m.IsVisible := by
  unfold Scene.integrate Model.Render Model.GetMatrix
  dsimp only
  split_ifs <;> first | rfl | (exfalso; tauto)

theorem Scene.spawn_IsVisible (E : Lib F) (rand : Nat → Nat) (k : Nat) (m : Model F) :
    (Scene.spawn E rand k m).1.IsVisible = 1 := by
  unfold Scene.spawn
  rw [if_pos (Nat.mod_one _)]

theorem Scene.spawn_Pos (E : Lib F) (rand : Nat → Nat) (k : Nat) (m : Model F) :
    (Scene.spawn E rand k m).1.Pos
      = (((⟨Scene.randf (rand (k + 1)), Scene.randf (rand (k + 2)),
            Scene.randf (rand (k + 3))⟩ : Vector3 F).Normalize E).scale (1 / 10))
          + Scene.chgPos 1 := by
  unfold Scene.spawn
  rw [if_pos (Nat.mod_one _)]

theorem Scene.spawn_Scale (E : Lib F) (rand : Nat → Nat) (k : Nat) (m : Model F) :
    (Scene.spawn E rand k m).1.Scale = m.Scale := by
  unfold Scene.spawn
  rw [if_pos (Nat.mod_one _)]

theorem Scene.spawn_Rot (E : Lib F) (rand : Nat → Nat) (k : Nat) (m : Model F) :
    (Scene.spawn E rand k m).1.Rot = m.Rot := by
  unfold Scene.spawn
  rw [if_pos (Nat.mod_one _)]

/-! ### The loop of `Scene::Render` -/

theorem Scene.renderStep_heap_of_ne (E : Lib F) (s : Scene) (view proj : Matrix4 F)
    (w : World F) (i q : Nat) (h : q ≠ s.Models i) :
    (Scene.renderStep E s view proj w i).heap q = w.heap q := by
  unfold Scene.renderStep
  dsimp only
  split_ifs <;> simp [World.store, Function.update_noteq h]

theorem Scene.renderStep_heap_self (E : Lib F) (s : Scene) (view proj : Matrix4 F)
    (w : World F) (i : Nat) :
    (Scene.renderStep E s view proj w i).heap (s.Models i)
      = if (w.heap (s.Models i)).IsArrow ≠ 0 then
          if (w.heap (s.Models i)).IsVisible ≠ 0 then
            (Scene.integrate E view proj (s.Models i) (w.heap (s.Models i))).1
          else (Scene.spawn E w.rand w.calls (w.heap (s.Models i))).1
        else ((w.heap (s.Models i)).Render (s.Models i) view proj).1 := by
  unfold Scene.renderStep
  dsimp only
  split_ifs <;> simp [World.store]

theorem Scene.renderStep_rand (E : Lib F) (s : Scene) (view proj : Matrix4 F)
    (w : World F) (i : Nat) :
    (Scene.renderStep E s view proj w i).rand = w.rand := by
  unfold Scene.renderStep
  dsimp only
  split_ifs <;> rfl

theorem Scene.renderStep_brk (E : Lib F) (s : Scene) (view proj : Matrix4 F)
    (w : World F) (i : Nat) :
    (Scene.renderStep E s view proj w i).brk = w.brk := by
  unfold Scene.renderStep
  dsimp only
  split_ifs <;> rfl

theorem Scene.before_zero (E : Lib F) (view proj : Matrix4 F) (s : Scene) (w : World F) :
    Scene.before E view proj s w 0 = w := rfl

theorem Scene.before_succ (E : Lib F) (view proj : Matrix4 F) (s : Scene) (w : World F)
    (i : Nat) :
    Scene.before E view proj s w (i + 1)
      = Scene.renderStep E s view proj (Scene.before E view proj s w i) i := by
  simp [Scene.before, List.range_succ, List.foldl_append]

theorem Scene.Render_eq_before (E : Lib F) (view proj : Matrix4 F) (s : Scene) (w : World F) :
    (Scene.Render E view proj s w).2 = Scene.before E view proj s w s.numModels := rfl

theorem Scene.before_rand (E : Lib F) (view proj : Matrix4 F) (s : Scene) (w : World F)
    (i : Nat) : (Scene.before E view proj s w i).rand = w.rand := by
  induction i with
  | zero => rfl
  | succ i ih => rw [Scene.before_succ, Scene.renderStep_rand, ih]

/-- An object the first `i` iterations do not visit is as it was. -/
theorem Scene.before_heap_untouched (E : Lib F) (view proj : Matrix4 F) (s : Scene)
    (w : World F) (q : Nat) (i : Nat) (h : ∀ j, j < i → q ≠ s.Models j) :
    (Scene.before E view proj s w i).heap q = w.heap q := by
  induction i with
  | zero => rfl
  | succ i ih =>
    rw [Scene.before_succ, Scene.renderStep_heap_of_ne _ _ _ _ _ _ _ (h i (Nat.lt_succ_self i))]
    exact ih fun j hj => h j (Nat.lt_succ_of_lt hj)

/-- In a pool of distinct objects, the model of slot `i` is visited once: its
final state is the one iteration `i` leaves. -/
theorem Scene.before_heap_visited (E : Lib F) (view proj : Matrix4 F) (s : Scene)
    (w : World F) (hd : s.Distinct) (i n : Nat) (hin : i < n) (hn : n ≤ s.numModels) :
    (Scene.before E view proj s w n).heap (s.Models i)
      = (Scene.before E view proj s w (i + 1)).heap (s.Models i) := by
  induction n with
  | zero => omega
  | succ n ih =>
    rcases Nat.lt_succ_iff_lt_or_eq.mp hin with h | h
    · rw [Scene.before_succ, Scene.renderStep_heap_of_ne]
      · exact ih h (by omega)
      · intro he
        have := hd i n (by omega) (by omega) he
        omega
    · rw [h]

/-- The state of the model of slot `i` after `Scene::Render`, in a pool of
distinct objects: the loop body applied to its state before the call, with the
`rand()` position of iteration `i`. -/
theorem Scene.Render_heap (E : Lib F) (view proj : Matrix4 F) (s : Scene)
    (w : World F) (hd : s.Distinct) (i : Nat) (hi : i < s.numModels) :
    (Scene.Render E view proj s w).2.heap (s.Models i)
      = if (w.heap (s.Models i)).IsArrow ≠ 0 then
          if (w.heap (s.Models i)).IsVisible ≠ 0 then
            (Scene.integrate E view proj (s.Models i) (w.heap (s.Models i))).1
          else (Scene.spawn E w.rand (Scene.before E view proj s w i).calls
                  (w.heap (s.Models i))).1
        else ((w.heap (s.Models i)).Render (s.Models i) view proj).1 := by
  have hu : (Scene.before E view proj s w i).heap (s.Models i) = w.heap (s.Models i) := by
    apply Scene.before_heap_untouched
    intro j hj he
    have := hd i j hi (by omega) he
    omega
  rw [Scene.Render_eq_before, Scene.before_heap_visited E view proj s w hd i _ hi le_rfl,
    Scene.before_succ, Scene.renderStep_heap_self, hu, Scene.before_rand]

/-! ### What a frame keeps -/

theorem Model.frameKeeps_refl (a : Model F) : a.FrameKeeps a :=
  ⟨rfl, rfl, rfl, rfl, rfl, rfl, fun _ => ⟨rfl, rfl, rfl, rfl⟩⟩

theorem Model.frameKeeps_trans {a b c : Model F} (h1 : a.FrameKeeps b) (h2 : b.FrameKeeps c) :
    a.FrameKeeps c := by
  obtain ⟨a1, a2, a3, a4, a5, a6, a7⟩ := h1
  obtain ⟨b1, b2, b3, b4, b5, b6, b7⟩ := h2
  refine ⟨b1.trans a1, b2.trans a2, b3.trans a3, b4.trans a4, b5.trans a5, b6.trans a6, ?_⟩
  intro h
  obtain ⟨c1, c2, c3, c4⟩ := a7 h
  obtain ⟨d1, d2, d3, d4⟩ := b7 (a1.trans h)
  exact ⟨d1.trans c1, d2.trans c2, d3.trans c3, d4.trans c4⟩

theorem Model.Render_keeps (self : Nat) (view proj : Matrix4 F) (m : Model F) :
    m.FrameKeeps (m.Render self view proj).1 :=
  ⟨rfl, rfl, rfl, rfl, rfl, rfl, fun _ => ⟨rfl, rfl, rfl, rfl⟩⟩

theorem Scene.integrate_keeps (E : Lib F) (view proj : Matrix4 F) (self : Nat) (m : Model F)
    (ha : m.IsArrow ≠ 0) : m.FrameKeeps (Scene.integrate E view proj self m).1 := by
  unfold Scene.integrate Model.Render Model.GetMatrix
  dsimp only
  split_ifs <;> exact ⟨rfl, rfl, rfl, rfl, rfl, rfl, fun h => absurd h ha⟩

theorem Scene.spawn_keeps (E : Lib F) (rand : Nat → Nat) (k : Nat) (m : Model F)
    (ha : m.IsArrow ≠ 0) : m.FrameKeeps (Scene.spawn E rand k m).1 := by
  unfold Scene.spawn
  rw [if_pos (Nat.mod_one _)]
  exact ⟨rfl, rfl, rfl, rfl, rfl, rfl, fun h => absurd h ha⟩

theorem Scene.renderStep_keeps (E : Lib F) (s : Scene) (view proj : Matrix4 F)
    (w : World F) (i q : Nat) :
    (w.heap q).FrameKeeps ((Scene.renderStep E s view proj w i).heap q) := by
  by_cases hq : q = s.Models i
  · subst hq
    rw [Scene.renderStep_heap_self]
    split_ifs with ha hv
    · exact Scene.integrate_keeps E view proj _ _ ha
    · exact Scene.spawn_keeps E _ _ _ ha
    · exact Model.Render_keeps _ view proj _
  · rw [Scene.renderStep_heap_of_ne E s view proj w i q hq]
    exact Model.frameKeeps_refl _

theorem Scene.before_keeps (E : Lib F) (view proj : Matrix4 F) (s : Scene) (w : World F)
    (i q : Nat) : (w.heap q).FrameKeeps ((Scene.before E view proj s w i).heap q) := by
  induction i with
  | zero => exact Model.frameKeeps_refl _
  | succ i ih =>
    rw [Scene.before_succ]
    exact Model.frameKeeps_trans ih (Scene.renderStep_keeps E s view proj _ i q)

theorem Scene.before_brk (E : Lib F) (view proj : Matrix4 F) (s : Scene) (w : World F)
    (i : Nat) : (Scene.before E view proj s w i).brk = w.brk := by
  induction i with
  | zero => rfl
  | succ i ih => rw [Scene.before_succ, Scene.renderStep_brk, ih]

/-! ### The cached matrix -/

/-- The integrate branch leaves in `Mat` the matrix it draws with: that of the
`Pos`, `Scale` and `Rot` it leaves in the model. -/
theorem Scene.integrate_Mat (E : Lib F) (view proj : Matrix4 F) (self : Nat) (m : Model F) :
    (Scene.integrate E view proj self m).2.model = self
      ∧ (Scene.integrate E view proj self m).1.Mat
          = (Scene.integrate E view proj self m).2.viewOnly
      ∧ (Scene.integrate E view proj self m).1.Mat
          = (Matrix4.Translation (Scene.integrate E view proj self m).1.Pos).mul
              ((Matrix4.Scaling (Scene.integrate E view proj self m).1.Scale).mul
                (Matrix4.ofQuat (Scene.integrate E view proj self m).1.Rot)) := by
  unfold Scene.integrate Model.Render Model.GetMatrix
  dsimp only
  split_ifs <;> exact ⟨rfl, rfl, rfl⟩

/-- A call of `Model::Render` leaves in `Mat` the matrix it draws with: that of
the `Pos`, `Scale` and `Rot` of the model. -/
theorem Model.Render_Mat (self : Nat) (view proj : Matrix4 F) (m : Model F) :
    (m.Render self view proj).2.model = self
      ∧ (m.Render self view proj).1.Mat = (m.Render self view proj).2.viewOnly
      ∧ (m.Render self view proj).1.Mat
          = (Matrix4.Translation (m.Render self view proj).1.Pos).mul
              ((Matrix4.Scaling (m.Render self view proj).1.Scale).mul
                (Matrix4.ofQuat (m.Render self view proj).1.Rot)) :=
  ⟨rfl, rfl, rfl⟩

/-- The reactivation branch does not touch `Mat`. -/
theorem Scene.spawn_Mat (E : Lib F) (rand : Nat → Nat) (k : Nat) (m : Model F) :
    (Scene.spawn E rand k m).1.Mat = m.Mat := by
  unfold Scene.spawn
  rw [if_pos (Nat.mod_one _)]

/-- One iteration of the loop of `Scene::Render` changes `Mat` only in a model
it draws, and then to the matrix of that draw call. -/
theorem Scene.renderStep_mat (E : Lib F) (s : Scene) (view proj : Matrix4 F)
    (w : World F) (i : Nat) :
    ∃ l, (Scene.renderStep E s view proj w i).drawn = w.drawn ++ l
      ∧ ∀ q, ((Scene.renderStep E s view proj w i).heap q).Mat = (w.heap q).Mat
          ∨ ∃ d ∈ l, d.model = q
              ∧ ((Scene.renderStep E s view proj w i).heap q).Mat = d.viewOnly := by
  by_cases ha : (w.heap (s.Models i)).IsArrow ≠ 0
  · by_cases hv : (w.heap (s.Models i)).IsVisible ≠ 0
    · refine ⟨[(Scene.integrate E view proj (s.Models i) (w.heap (s.Models i))).2], ?_, ?_⟩
      · unfold Scene.renderStep
        simp [ha, hv, World.store]
      · intro q
        by_cases hq : q = s.Models i
        · subst hq
          refine Or.inr ⟨_, List.mem_singleton.mpr rfl, (Scene.integrate_Mat E view proj _ _).1, ?_⟩
          rw [Scene.renderStep_heap_self, if_pos ha, if_pos hv]
          exact (Scene.integrate_Mat E view proj _ _).2.1
        · exact Or.inl (by rw [Scene.renderStep_heap_of_ne E s view proj w i q hq])
    · refine ⟨[], ?_, ?_⟩
      · unfold Scene.renderStep
        simp [ha, hv, World.store]
      · intro q
        refine Or.inl ?_
        by_cases hq : q = s.Models i
        · subst hq
          rw [Scene.renderStep_heap_self, if_pos ha, if_neg hv, Scene.spawn_Mat]
        · rw [Scene.renderStep_heap_of_ne E s view proj w i q hq]
  · refine ⟨[((w.heap (s.Models i)).Render (s.Models i) view proj).2], ?_, ?_⟩
    · unfold Scene.renderStep
      simp [ha, World.store]
    · intro q
      by_cases hq : q = s.Models i
      · subst hq
        refine Or.inr ⟨_, List.mem_singleton.mpr rfl, rfl, ?_⟩
        rw [Scene.renderStep_heap_self, if_neg ha]
        rfl
      · exact Or.inl (by rw [Scene.renderStep_heap_of_ne E s view proj w i q hq])

/-- The first `i` iterations of the loop of `Scene::Render` change `Mat` only
in models they draw: a changed `Mat` is the matrix of one of the draw calls
made for that model. -/
theorem Scene.before_mat (E : Lib F) (view proj : Matrix4 F) (s : Scene) (w : World F)
    (i : Nat) :
    ∃ dl, (Scene.before E view proj s w i).drawn = w.drawn ++ dl
      ∧ ∀ q, ((Scene.before E view proj s w i).heap q).Mat = (w.heap q).Mat
          ∨ ∃ d ∈ dl, d.model = q ∧ ((Scene.before E view proj s w i).heap q).Mat = d.viewOnly := by
  induction i with
  | zero => exact ⟨[], by simp [Scene.before_zero], fun q => Or.inl rfl⟩
  | succ i ih =>
    obtain ⟨dl, hdl, hq⟩ := ih
    obtain ⟨l, hl, hs⟩ :=
      Scene.renderStep_mat E s view proj (Scene.before E view proj s w i) i
    refine ⟨dl ++ l, ?_, ?_⟩
    · rw [Scene.before_succ, hl, hdl, List.append_assoc]
    · intro q
      rw [Scene.before_succ]
      rcases hs q with h1 | ⟨d, hd, hm, hv⟩
      · rcases hq q with h2 | ⟨d, hd, hm, hv⟩
        · exact Or.inl (h1.trans h2)
        · exact Or.inr ⟨d, List.mem_append_left l hd, hm, h1.trans hv⟩
      · exact Or.inr ⟨d, List.mem_append_right dl hd, hm, hv⟩

/-! ### The exact square root -/

theorem Lib.Exact.sqrt_mul_self {E : Lib F} (hE : E.Exact) {a : F} (ha : 0 ≤ a) :
    E.sqrtf (a * a) = a := by
  obtain ⟨h0, h1⟩ := hE (a * a) (mul_self_nonneg a)
  rcases mul_self_eq_mul_self_iff.mp h1 with h | h
  · exact h
  · have hz : a = 0 := by linarith
    rw [h, hz, neg_zero]

/-- With an exact square root, the net field at the origin is `(1/2, 0, 0)`. -/
theorem Scene.netField_origin {E : Lib F} (hE : E.Exact) :
    Scene.netField E (⟨0, 0, 0⟩ : Vector3 F) = ⟨1 / 2, 0, 0⟩ := by
  have h := hE.sqrt_mul_self (show (0 : F) ≤ 2 by norm_num)
  have h2 : E.sqrtf ((0 - 2 : F) ^ 2 + (0 - 0) ^ 2 + (0 - 0) ^ 2) = 2 := by
    have e : (0 - 2 : F) ^ 2 + (0 - 0) ^ 2 + (0 - 0) ^ 2 = 2 * 2 := by norm_num
    rw [e, h]
  have h2' : E.sqrtf ((0 - -2 : F) ^ 2 + (0 - 0) ^ 2 + (0 - 0) ^ 2) = 2 := by
    have e : (0 - -2 : F) ^ 2 + (0 - 0) ^ 2 + (0 - 0) ^ 2 = 2 * 2 := by norm_num
    rw [e, h]
  rw [Scene.netField_eq_coulomb hE]
  · simp only [coulomb, dist, h2, h2', Vector3.add_def]
    ext <;> simp only <;> norm_num
  · intro h
    injection h with hx
    norm_num at hx
  · intro h
    injection h with hx
    norm_num at hx

/-- With an exact square root, a reactivation whose drawn vector is not zero
puts the arrow at distance `0.1` from source 1 at `(-2,0,0)`. -/
theorem Scene.spawn_on_sphere {E : Lib F} (hE : E.Exact) (rand : Nat → Nat) (k : Nat)
    (m : Model F)
    (hv : (⟨Scene.randf (rand (k + 1)), Scene.randf (rand (k + 2)),
        Scene.randf (rand (k + 3))⟩ : Vector3 F) ≠ ⟨0, 0, 0⟩) :
    dist E (Scene.spawn E rand k m).1.Pos ⟨-2, 0, 0⟩ = 1 / 10 := by
  have hl := Vector3.length_ne_zero hE hv
  have hs := Vector3.length_mul_self hE
    (⟨Scene.randf (rand (k + 1)), Scene.randf (rand (k + 2)), Scene.randf (rand (k + 3))⟩ :
      Vector3 F)
  rw [Scene.spawn_Pos, Scene.chgPos_one]
  simp only [dist, Vector3.Normalize, if_pos hl, Vector3.scale, Vector3.add_def]
  refine Eq.trans ?_ (hE.sqrt_mul_self (show (0 : F) ≤ 1 / 10 by norm_num))
  congr 1
  simp only [Vector3.LengthSq] at hs
  field_simp
  linear_combination (-100 : F) * hs

/-! ### The concrete inputs -/

theorem real_exact (co si : ℝ → ℝ) : (Lib.test Real.sqrt co si).Exact :=
  fun a ha => ⟨Real.sqrt_nonneg a, Real.mul_self_sqrt ha⟩

theorem Scene.pool_distinct (n : Nat) : (Scene.pool n).Distinct :=
  fun _ _ _ _ h => h

end Lemmas

section MeshLemmas

set_option linter.unusedSectionVars false

variable {F : Type} [LinearOrderedField F]

theorem Model.sameState_refl (a : Model F) : a.SameState a :=
  ⟨rfl, rfl, rfl, rfl, rfl, rfl, rfl, rfl, rfl⟩

theorem Model.sameState_trans {a b c : Model F} (h1 : a.SameState b) (h2 : b.SameState c) :
    a.SameState c := by
  obtain ⟨a1, a2, a3, a4, a5, a6, a7, a8, a9⟩ := h1
  obtain ⟨b1, b2, b3, b4, b5, b6, b7, b8, b9⟩ := h2
  exact ⟨b1.trans a1, b2.trans a2, b3.trans a3, b4.trans a4, b5.trans a5, b6.trans a6,
    b7.trans a7, b8.trans a8, b9.trans a9⟩

/-- A call of `AddVertex` returns when the array has room for the vertex and one more. -/
theorem Model.AddVertex_ok (m : Model F) (v : Vertex F) (h : m.numVertices + 1 < 2000) :
    ∃ m', m.AddVertex v = some m' ∧ m'.numVertices = m.numVertices + 1
      ∧ m'.numIndices = m.numIndices ∧ m.SameState m' := by
  refine ⟨{ m with Vertices := m.Vertices ++ [v] }, ?_, ?_, rfl, Model.sameState_refl _⟩
  · unfold Model.AddVertex
    have : (({ m with Vertices := m.Vertices ++ [v] } : Model F)).numVertices < 2000 := by
      simp only [Model.numVertices, List.length_append, List.length_singleton] at h ⊢
      exact h
    simp only [this, if_true]
  · simp [Model.numVertices]

/-- A call of `AddIndex` returns when `numVertices < 2000`. -/
theorem Model.AddIndex_ok (m : Model F) (a : Nat) (h : m.numVertices < 2000) :
    ∃ m', m.AddIndex a = some m' ∧ m'.numVertices = m.numVertices
      ∧ m'.numIndices = m.numIndices + 1 ∧ m.SameState m' := by
  refine ⟨{ m with Indices := m.Indices ++ [a % 65536] }, ?_, rfl, ?_, Model.sameState_refl _⟩
  · unfold Model.AddIndex
    have : (({ m with Indices := m.Indices ++ [a % 65536] } : Model F)).numVertices < 2000 := h
    simp only [this, if_true]
  · simp [Model.numIndices]

theorem Model.addVertices_ok (vs : List (Vertex F)) (m : Model F)
    (h : m.numVertices + vs.length < 2000) :
    ∃ m', Model.addVertices vs m = some m' ∧ m'.numVertices = m.numVertices + vs.length
      ∧ m'.numIndices = m.numIndices ∧ m.SameState m' := by
  induction vs generalizing m with
  | nil => exact ⟨m, rfl, rfl, rfl, Model.sameState_refl _⟩
  | cons v rest ih =>
    simp only [List.length_cons] at h
    obtain ⟨m1, e1, n1, i1, s1⟩ := Model.AddVertex_ok m v (by omega)
    obtain ⟨m2, e2, n2, i2, s2⟩ := ih m1 (by omega)
    refine ⟨m2, ?_, ?_, ?_, Model.sameState_trans s1 s2⟩
    · simp only [Model.addVertices, e1, e2]
    · simp only [List.length_cons]; omega
    · omega

theorem Model.addBoxIndices_ok (cis : List Nat) (m : Model F) (h : m.numVertices < 2000) :
    ∃ m', Model.addBoxIndices cis m = some m' ∧ m'.numVertices = m.numVertices
      ∧ m'.numIndices = m.numIndices + cis.length ∧ m.SameState m' := by
  induction cis generalizing m with
  | nil => exact ⟨m, rfl, rfl, rfl, Model.sameState_refl _⟩
  | cons ci rest ih =>
    obtain ⟨m1, e1, n1, i1, s1⟩ := Model.AddIndex_ok m (ci + m.numVertices % 65536) h
    obtain ⟨m2, e2, n2, i2, s2⟩ := ih m1 (by omega)
    refine ⟨m2, ?_, ?_, ?_, Model.sameState_trans s1 s2⟩
    · simp only [Model.addBoxIndices, e1, e2]
    · omega
    · simp only [List.length_cons]; omega

theorem Model.addTriangleIndices_ok (fuel i : Nat) (m : Model F) (h : m.numVertices < 2000)
    (h0 : 0 < fuel) (hf : m.numVertices + 3 ≤ i + 3 * fuel) :
    ∃ m', Model.addTriangleIndices fuel i m = some m' ∧ m'.numVertices = m.numVertices
      ∧ m.SameState m' := by
  induction fuel generalizing i m with
  | zero => omega
  | succ fuel ih =>
    by_cases hi : i < m.numVertices
    · obtain ⟨m1, e1, n1, _, s1⟩ := Model.AddIndex_ok m (i + 0) h
      obtain ⟨m2, e2, n2, _, s2⟩ := Model.AddIndex_ok m1 (i + 1) (by omega)
      obtain ⟨m3, e3, n3, _, s3⟩ := Model.AddIndex_ok m2 (i + 2) (by omega)
      obtain ⟨m4, e4, n4, s4⟩ := ih (i + 3) m3 (by omega) (by omega) (by omega)
      refine ⟨m4, ?_, by omega,
        Model.sameState_trans (Model.sameState_trans (Model.sameState_trans s1 s2) s3) s4⟩
      simp only [Model.addTriangleIndices, if_pos hi, e1, e2, e3, e4]
    · exact ⟨m, by simp only [Model.addTriangleIndices, if_neg hi], rfl, Model.sameState_refl _⟩

theorem Model.arrowSlice_length (E : Lib F) (i : Nat) : (Model.arrowSlice E i).length = 18 := rfl

theorem Model.arrow_vertex_count (E : Lib F) (n : Nat) :
    ((List.range n).flatMap (Model.arrowSlice E)).length = 18 * n := by
  induction n with
  | zero => rfl
  | succ n ih =>
    rw [List.range_succ, List.flatMap_append, List.length_append, ih]
    simp only [List.flatMap_cons, List.flatMap_nil, List.append_nil, Model.arrowSlice_length]
    omega

/-- A call of `AddArrow` returns on a model with room for its 288 vertices, and changes
the mesh only. -/
theorem Model.AddArrow_ok (E : Lib F) (m : Model F) (h : m.numVertices + 288 < 2000) :
    ∃ m', m.AddArrow E = some m' ∧ m'.numVertices = m.numVertices + 288 ∧ m.SameState m' := by
  have hl := Model.arrow_vertex_count E 16
  obtain ⟨m1, e1, n1, _, s1⟩ :=
    Model.addVertices_ok ((List.range 16).flatMap (Model.arrowSlice E)) m (by omega)
  obtain ⟨m2, e2, n2, s2⟩ :=
    Model.addTriangleIndices_ok (m1.numVertices + 1) 0 m1 (by omega) (by omega) (by omega)
  refine ⟨m2, ?_, by omega, Model.sameState_trans s1 s2⟩
  simp only [Model.AddArrow, e1, e2]

/-- One iteration of the arrow loop of `Scene::Init` returns while the pool
has room: the new arrow is at the next address, in the next slot, with
`IsArrow = 1` and `IsVisible = 0`. -/
theorem Scene.initArrow_ok (E : Lib F) (s : Scene) (w : World F) (h : s.numModels < 5000) :
    ∃ s' w', Scene.initArrow E (s, w) = some (s', w')
      ∧ s'.numModels = s.numModels + 1 ∧ s'.Models = Function.update s.Models s.numModels w.brk
      ∧ w'.brk = w.brk + 1 ∧ (w'.heap w.brk).IsArrow = 1 ∧ (w'.heap w.brk).IsVisible = 0
      ∧ ∀ q, q ≠ w.brk → w'.heap q = w.heap q := by
  have hn : ((w.new Vector3.zero 4).2.heap (w.new Vector3.zero 4).1).numVertices + 288 < 2000 := by
    simp [World.new, Model.new, Model.numVertices]
  obtain ⟨a, e, _, _⟩ := Model.AddArrow_ok E _ hn
  simp only [Scene.initArrow, e, Scene.Add, if_pos h]
  refine ⟨_, _, rfl, rfl, rfl, rfl, ?_, ?_, ?_⟩
  · simp [World.store, World.new]
  · simp [World.store, World.new]
  · intro q hq
    simp [World.store, World.new, Function.update_noteq hq]

/-- The arrow loop of `Scene::Init` returns while the pool has room: `n`
iterations fill the next `n` slots with the next `n` addresses, each holding
an arrow with `IsArrow = 1` and `IsVisible = 0`. -/
theorem Scene.initArrows_ok (E : Lib F) (n : Nat) (s : Scene) (w : World F)
    (h : s.numModels + n ≤ 5000) :
    ∃ s' w', Scene.times (Scene.initArrow E) n (s, w) = some (s', w')
      ∧ s'.numModels = s.numModels + n ∧ w'.brk = w.brk + n
      ∧ (∀ j, j < n → s'.Models (s.numModels + j) = w.brk + j)
      ∧ (∀ j, j < s.numModels → s'.Models j = s.Models j)
      ∧ (∀ j, j < n → (w'.heap (w.brk + j)).IsArrow = 1 ∧ (w'.heap (w.brk + j)).IsVisible = 0)
      ∧ ∀ q, q < w.brk → w'.heap q = w.heap q := by
  induction n generalizing s w with
  | zero =>
    exact ⟨s, w, rfl, rfl, rfl, fun j hj => absurd hj (Nat.not_lt_zero j), fun _ _ => rfl,
      fun j hj => absurd hj (Nat.not_lt_zero j), fun _ _ => rfl⟩
  | succ n ih =>
    obtain ⟨s1, w1, e1, n1, m1, b1, a1, v1, k1⟩ := Scene.initArrow_ok E s w (by omega)
    obtain ⟨s2, w2, e2, n2, b2, m2, p2, a2, k2⟩ := ih s1 w1 (by omega)
    refine ⟨s2, w2, ?_, by omega, by omega, ?_, ?_, ?_, ?_⟩
    · simp only [Scene.times, e1, e2]
    · intro j hj
      rcases Nat.eq_zero_or_pos j with h0 | h0
      · subst h0
        rw [Nat.add_zero, Nat.add_zero, p2 _ (by omega), m1, Function.update_same]
      · have e : s.numModels + j = s1.numModels + (j - 1) := by omega
        rw [e, m2 (j - 1) (by omega)]
        omega
    · intro j hj
      rw [p2 j (by omega), m1, Function.update_noteq (by omega)]
    · intro j hj
      rcases Nat.eq_zero_or_pos j with h0 | h0
      · subst h0
        rw [Nat.add_zero, k2 _ (by omega)]
        exact ⟨a1, v1⟩
      · have e : w.brk + j = w1.brk + (j - 1) := by omega
        rw [e]
        exact a2 (j - 1) (by omega)
    · intro q hq
      rw [k2 q (by omega), k1 q (by omega)]

/-- After `new Model(pos, fill)` the object is at the old
`brk`, has no vertices, is not an arrow, and no other object is touched. -/
theorem World.new_ok (w : World F) (pos : Vector3 F) (fill : Nat) :
    ∃ p w', w.new pos fill = (p, w') ∧ p = w.brk ∧ w'.brk = w.brk + 1
      ∧ (w'.heap p).numVertices = 0 ∧ (w'.heap p).IsArrow = 0 ∧ (w'.heap p).Fill = fill
      ∧ ∀ q, q ≠ p → w'.heap q = w.heap q := by
  refine ⟨_, _, rfl, rfl, rfl, ?_, ?_, ?_, ?_⟩
  · simp [World.new, Model.new, Model.numVertices]
  · simp [World.new, Model.new]
  · simp [World.new, Model.new]
  · intro q hq
    simp only [World.new] at hq ⊢
    exact Function.update_noteq hq _ _

/-- The store `m->AllocateBuffers()` keeps the allocator, and the flags and the
material of every object. -/
theorem World.allocate_ok (w : World F) (p : Nat) :
    ∃ w', w.store p (w.heap p).AllocateBuffers = w' ∧ w'.brk = w.brk
      ∧ ∀ q, (w'.heap q).IsArrow = (w.heap q).IsArrow
          ∧ (w'.heap q).IsVisible = (w.heap q).IsVisible ∧ (w'.heap q).Fill = (w.heap q).Fill := by
  refine ⟨_, rfl, rfl, fun q => ?_⟩
  by_cases hq : q = p
  · subst hq
    simp [World.store, Model.AllocateBuffers]
  · simp [World.store, Function.update_noteq hq]

end MeshLemmas

section InitLemmas

variable {F : Type} [LinearOrderedField F] [FloorRing F]

theorem Model.addBoxVertices_ok (E : Lib F) (rand : Nat → Nat) (c : Nat)
    (rows : List (Vector3 F × Vector3 F)) (m : Model F) (k : Nat)
    (h : m.numVertices + rows.length < 2000) :
    ∃ m', Model.addBoxVertices E rand c rows m k = some (m', k + rows.length)
      ∧ m'.numVertices = m.numVertices + rows.length ∧ m'.numIndices = m.numIndices
      ∧ m.SameState m' := by
  induction rows generalizing m k with
  | nil => exact ⟨m, rfl, rfl, rfl, Model.sameState_refl _⟩
  | cons row rest ih =>
    obtain ⟨p, t⟩ := row
    simp only [List.length_cons] at h
    obtain ⟨m1, e1, n1, i1, s1⟩ := Model.AddVertex_ok m
      { Pos := p, Normal := Vector3.zero, C := Model.boxColor E p c (rand k), U := t.x, V := t.y }
      (by omega)
    obtain ⟨m2, e2, n2, i2, s2⟩ := ih m1 (k + 1) (by omega)
    refine ⟨m2, ?_, ?_, ?_, Model.sameState_trans s1 s2⟩
    · simp only [Model.addBoxVertices, e1, e2, List.length_cons]
      congr 2
      omega
    · simp only [List.length_cons]; omega
    · omega

/-- A call of `AddSolidColorBox` returns on a model with room for its 24 vertices: it
adds 24 vertices and 36 indices, draws 24 `rand()` values, and changes the
mesh only. -/
theorem Model.AddSolidColorBox_ok (E : Lib F) (rand : Nat → Nat) (x1 y1 z1 x2 y2 z2 : F)
    (c : Nat) (m : Model F) (k : Nat) (h : m.numVertices + 24 < 2000) :
    ∃ m', m.AddSolidColorBox E rand x1 y1 z1 x2 y2 z2 c k = some (m', k + 24)
      ∧ m'.numVertices = m.numVertices + 24 ∧ m'.numIndices = m.numIndices + 36
      ∧ m.SameState m' := by
  obtain ⟨m1, e1, n1, i1, s1⟩ := Model.addBoxIndices_ok Model.CubeIndices m (by omega)
  have hl : (Model.boxVert x1 y1 z1 x2 y2 z2).length = 24 := rfl
  have hc : Model.CubeIndices.length = 36 := rfl
  obtain ⟨m2, e2, n2, i2, s2⟩ :=
    Model.addBoxVertices_ok E rand c (Model.boxVert x1 y1 z1 x2 y2 z2) m1 k (by omega)
  refine ⟨m2, ?_, by omega, by omega, Model.sameState_trans s1 s2⟩
  simp only [Model.AddSolidColorBox, e1, e2, hl]

/-- A call of `AddSolidColorBox` through a pointer: the model pointed to gets
24 more vertices and keeps its state, every other object is as it was. -/
theorem Scene.addBox_ok (E : Lib F) (m : Nat) (x1 y1 z1 x2 y2 z2 : F) (w : World F)
    (h : (w.heap m).numVertices + 24 < 2000) :
    ∃ w', Scene.addBox E m x1 y1 z1 x2 y2 z2 w = some w' ∧ w'.brk = w.brk
      ∧ (w'.heap m).numVertices = (w.heap m).numVertices + 24
      ∧ (w.heap m).SameState (w'.heap m) ∧ ∀ q, q ≠ m → w'.heap q = w.heap q := by
  obtain ⟨a, e, n, _, sa⟩ :=
    Model.AddSolidColorBox_ok E w.rand x1 y1 z1 x2 y2 z2 0xff808080 (w.heap m) w.calls h
  refine ⟨{ w.store m a with calls := w.calls + 24 }, ?_, rfl, ?_, ?_, ?_⟩
  · simp only [Scene.addBox, e]
  · simp [World.store, n]
  · simpa [World.store] using sa
  · intro q hq
    simp [World.store, Function.update_noteq hq]

/-- The form of `Scene.addBox_ok` used for `Scene::Init`: the flags and the
material of every object are kept. -/
theorem Scene.addBox_tags (E : Lib F) (m : Nat) (x1 y1 z1 x2 y2 z2 : F) (w : World F)
    (h : (w.heap m).numVertices + 24 < 2000) :
    ∃ w', Scene.addBox E m x1 y1 z1 x2 y2 z2 w = some w' ∧ w'.brk = w.brk
      ∧ (w'.heap m).numVertices = (w.heap m).numVertices + 24
      ∧ ∀ q, (w'.heap q).IsArrow = (w.heap q).IsArrow
          ∧ (w'.heap q).IsVisible = (w.heap q).IsVisible ∧ (w'.heap q).Fill = (w.heap q).Fill := by
  obtain ⟨w', e, b, n, sa, k⟩ := Scene.addBox_ok E m x1 y1 z1 x2 y2 z2 w h
  refine ⟨w', e, b, n, fun q => ?_⟩
  by_cases hq : q = m
  · subst hq
    exact ⟨sa.2.2.2.2.2.2.2.2, sa.2.2.2.2.2.2.2.1, sa.2.2.2.2.1⟩
  · rw [k q hq]
    exact ⟨rfl, rfl, rfl⟩

end InitLemmas

section Claims

variable {F : Type} [LinearOrderedField F]

/-- C1: at a position `p` that differs from both sources, the net field `f`
that the inner loop of `Scene::Render` computes is the sum over the two sources
of `(chg[j] / |p - chgPos[j]|^2) * (p - chgPos[j]) / |p - chgPos[j]|`; source 0
is at `(2,0,0)` with charge `-1` and source 1 at `(-2,0,0)` with charge `+1`,
constants of the function.  The square root is assumed exact. -/
theorem C1_netField_superposition (E : Lib F) (hE : E.Exact) (p : Vector3 F)
    (h0 : p ≠ Scene.chgPos 0) (h1 : p ≠ Scene.chgPos 1) :
    Scene.netField E p
        = coulomb E (Scene.chg 0) (Scene.chgPos 0) p + coulomb E (Scene.chg 1) (Scene.chgPos 1) p
      ∧ (Scene.chgPos 0 : Vector3 F) = ⟨2, 0, 0⟩ ∧ (Scene.chg 0 : F) = -1
      ∧ (Scene.chgPos 1 : Vector3 F) = ⟨-2, 0, 0⟩ ∧ (Scene.chg 1 : F) = 1 := by
  rw [Scene.chgPos_zero] at h0
  rw [Scene.chgPos_one] at h1
  refine ⟨?_, Scene.chgPos_zero, by simp [Scene.chg], Scene.chgPos_one, by simp [Scene.chg]⟩
  rw [Scene.chgPos_zero, Scene.chgPos_one, Scene.netField_eq_coulomb hE p h0 h1]
  simp [Scene.chg]

/-- C1 at the origin, over the reals. -/
theorem C1_netField_superposition_witness :
    Scene.netField (Lib.test Real.sqrt Real.cos Real.sin) (⟨0, 0, 0⟩ : Vector3 ℝ)
        = coulomb (Lib.test Real.sqrt Real.cos Real.sin) (Scene.chg 0) (Scene.chgPos 0) ⟨0, 0, 0⟩
          + coulomb (Lib.test Real.sqrt Real.cos Real.sin) (Scene.chg 1) (Scene.chgPos 1) ⟨0, 0, 0⟩
      ∧ (Scene.chgPos 0 : Vector3 ℝ) = ⟨2, 0, 0⟩ ∧ (Scene.chg 0 : ℝ) = -1
      ∧ (Scene.chgPos 1 : Vector3 ℝ) = ⟨-2, 0, 0⟩ ∧ (Scene.chg 1 : ℝ) = 1 :=
  C1_netField_superposition (Lib.test Real.sqrt Real.cos Real.sin) (real_exact _ _) ⟨0, 0, 0⟩
    (by rw [Scene.chgPos_zero]; intro h; injection h with hx; norm_num at hx)
    (by rw [Scene.chgPos_one]; intro h; injection h with hx; norm_num at hx)

/-- C2: a visible arrow at `p` at the start of `Scene::Render` is at
`p + 0.01 * f` after it, `f` the net field at `p`; nothing is assumed about
whether the call deactivates the arrow. -/
theorem C2_position_advances (E : Lib F) (view proj : Matrix4 F) (s : Scene) (w : World F)
    (i : Nat) (hd : s.Distinct) (hi : i < s.numModels)
    (ha : (w.heap (s.Models i)).IsArrow ≠ 0) (hv : (w.heap (s.Models i)).IsVisible ≠ 0) :
    ((Scene.Render E view proj s w).2.heap (s.Models i)).Pos
      = ⟨(w.heap (s.Models i)).Pos.x + 1 / 100 * (Scene.netField E (w.heap (s.Models i)).Pos).x,
         (w.heap (s.Models i)).Pos.y + 1 / 100 * (Scene.netField E (w.heap (s.Models i)).Pos).y,
         (w.heap (s.Models i)).Pos.z + 1 / 100 * (Scene.netField E (w.heap (s.Models i)).Pos).z⟩ := by
  rw [Scene.Render_heap E view proj s w hd i hi, if_pos ha, if_pos hv, Scene.integrate_Pos]
  simp only [Vector3.add_def, Vector3.scale]
  ext <;> simp only <;> ring

/-- C2 on one visible arrow at `(7,0,0)`, which the same call deactivates. -/
theorem C2_position_advances_witness :
    ((Scene.Render ratLib Matrix4.identity Matrix4.identity (Scene.pool 1)
        (World.test (Model.arrowAt ⟨7, 0, 0⟩ 1) fun _ => 0)).2.heap 0).Pos
      = ⟨7 + 1 / 100 * (Scene.netField ratLib ⟨7, 0, 0⟩).x,
         0 + 1 / 100 * (Scene.netField ratLib ⟨7, 0, 0⟩).y,
         0 + 1 / 100 * (Scene.netField ratLib ⟨7, 0, 0⟩).z⟩ :=
  C2_position_advances ratLib Matrix4.identity Matrix4.identity (Scene.pool 1)
    (World.test (Model.arrowAt ⟨7, 0, 0⟩ 1) fun _ => 0) 0 (Scene.pool_distinct 1)
    (by decide) (by decide) (by decide)

/-- C3: `Scene::Render` deactivates a visible arrow exactly when its position
at the start of the call is at distance less than 1 from source 0 at `(2,0,0)`
or at distance greater than 6 from the origin; otherwise `IsVisible` keeps its
value, so the arrow stays visible. -/
theorem C3_deactivation (E : Lib F) (view proj : Matrix4 F) (s : Scene) (w : World F)
    (i : Nat) (hd : s.Distinct) (hi : i < s.numModels)
    (ha : (w.heap (s.Models i)).IsArrow ≠ 0) (hv : (w.heap (s.Models i)).IsVisible ≠ 0) :
    (((Scene.Render E view proj s w).2.heap (s.Models i)).IsVisible = 0
        ↔ (dist E (w.heap (s.Models i)).Pos ⟨2, 0, 0⟩ < 1
            ∨ dist E (w.heap (s.Models i)).Pos ⟨0, 0, 0⟩ > 6))
      ∧ (¬ (dist E (w.heap (s.Models i)).Pos ⟨2, 0, 0⟩ < 1
            ∨ dist E (w.heap (s.Models i)).Pos ⟨0, 0, 0⟩ > 6)
          → ((Scene.Render E view proj s w).2.heap (s.Models i)).IsVisible
              = (w.heap (s.Models i)).IsVisible) := by
  have h6 : dist E (w.heap (s.Models i)).Pos ⟨0, 0, 0⟩ = (w.heap (s.Models i)).Pos.Length E := by
    simp only [dist, Vector3.Length, Vector3.LengthSq, sub_zero, sq]
  rw [Scene.Render_heap E view proj s w hd i hi, if_pos ha, if_pos hv,
    Scene.integrate_IsVisible, Scene.chgPos_zero, dist_eq_length, h6]
  constructor
  · constructor
    · intro h
      by_contra hc
      rw [if_neg hc] at h
      exact hv h
    · intro h
      rw [if_pos h]
  · intro h
    rw [if_neg h]

/-- C3 on one visible arrow at `(7,0,0)`. -/
theorem C3_deactivation_witness :
    (((Scene.Render ratLib Matrix4.identity Matrix4.identity (Scene.pool 1)
          (World.test (Model.arrowAt ⟨7, 0, 0⟩ 1) fun _ => 0)).2.heap 0).IsVisible = 0
        ↔ (dist ratLib ⟨7, 0, 0⟩ ⟨2, 0, 0⟩ < 1 ∨ dist ratLib ⟨7, 0, 0⟩ ⟨0, 0, 0⟩ > 6))
      ∧ (¬ (dist ratLib ⟨7, 0, 0⟩ ⟨2, 0, 0⟩ < 1 ∨ dist ratLib ⟨7, 0, 0⟩ ⟨0, 0, 0⟩ > 6)
          → ((Scene.Render ratLib Matrix4.identity Matrix4.identity (Scene.pool 1)
                (World.test (Model.arrowAt ⟨7, 0, 0⟩ 1) fun _ => 0)).2.heap 0).IsVisible = 1) :=
  C3_deactivation ratLib Matrix4.identity Matrix4.identity (Scene.pool 1)
    (World.test (Model.arrowAt ⟨7, 0, 0⟩ 1) fun _ => 0) 0 (Scene.pool_distinct 1)
    (by decide) (by decide) (by decide)

/-- C4 at the failing input: when the three `randf()` draws of a reactivation
are `rand()` values with remainder 500 modulo 1000, the drawn vector is
`(0,0,0)`, `Normalize` leaves it as it is, and the arrow is placed on source 1
at `(-2,0,0)` itself: its squared distance from the source is `0`, not
`0.1^2`, whatever the square root is. -/
theorem C4_spawn_on_source (E : Lib F) (rand : Nat → Nat) (k : Nat) (m : Model F)
    (a b c : Nat) :
    (Scene.spawn E (fun n => if n = k + 1 then 1000 * a + 500 else if n = k + 2 then
        1000 * b + 500 else if n = k + 3 then 1000 * c + 500 else rand n) k m).1.Pos
        = ⟨-2, 0, 0⟩
      ∧ ((Scene.spawn E (fun n => if n = k + 1 then 1000 * a + 500 else if n = k + 2 then
          1000 * b + 500 else if n = k + 3 then 1000 * c + 500 else rand n) k m).1.Pos
          - ⟨-2, 0, 0⟩).LengthSq ≠ (1 / 10) ^ 2 := by
  have hr : ∀ a : Nat, (Scene.randf (1000 * a + 500) : F) = 0 := by
    intro a
    have h : (1000 * a + 500) % 1000 = 500 := by omega
    simp only [Scene.randf, h]
    norm_num
  have hp : (Scene.spawn E (fun n => if n = k + 1 then 1000 * a + 500 else if n = k + 2 then
      1000 * b + 500 else if n = k + 3 then 1000 * c + 500 else rand n) k m).1.Pos
      = ⟨-2, 0, 0⟩ := by
    rw [Scene.spawn_Pos, Scene.chgPos_one]
    simp [hr, Vector3.Normalize, Vector3.scale, Vector3.add_def]
  refine ⟨hp, ?_⟩
  rw [hp]
  norm_num [Vector3.LengthSq, Vector3.sub_def]

/-- C5: the reactivation test `rand() % 1 == 0` holds for every value of
`rand()`, and one call of `Scene::Render` makes every inactive arrow visible,
whatever `rand()` returns. -/
theorem C5_reactivation_certain (E : Lib F) (view proj : Matrix4 F) (s : Scene) (w : World F)
    (i : Nat) (hd : s.Distinct) (hi : i < s.numModels)
    (ha : (w.heap (s.Models i)).IsArrow ≠ 0) (hv : (w.heap (s.Models i)).IsVisible = 0) :
    (∀ r : Nat, r % 1 = 0)
      ∧ ((Scene.Render E view proj s w).2.heap (s.Models i)).IsVisible = 1 := by
  refine ⟨Nat.mod_one, ?_⟩
  rw [Scene.Render_heap E view proj s w hd i hi, if_pos ha, if_neg (by simpa using hv),
    Scene.spawn_IsVisible]

/-- C5 on one inactive arrow. -/
theorem C5_reactivation_certain_witness :
    (∀ r : Nat, r % 1 = 0)
      ∧ ((Scene.Render ratLib Matrix4.identity Matrix4.identity (Scene.pool 1)
          (World.test (Model.arrowAt ⟨0, 0, 0⟩ 0) fun n => 7 * n + 3)).2.heap 0).IsVisible = 1 :=
  C5_reactivation_certain ratLib Matrix4.identity Matrix4.identity (Scene.pool 1)
    (World.test (Model.arrowAt ⟨0, 0, 0⟩ 0) fun n => 7 * n + 3) 0 (Scene.pool_distinct 1)
    (by decide) (by decide) (by decide)

/-- C6: `Scene::Render` sets the `Scale` of a visible arrow to the Euclidean
length of the net field `f` at the position the arrow has at the start of the
call, `f` not normalised (also when `f` is zero). -/
theorem C6_scale_is_field_length (E : Lib F) (view proj : Matrix4 F) (s : Scene) (w : World F)
    (i : Nat) (hd : s.Distinct) (hi : i < s.numModels)
    (ha : (w.heap (s.Models i)).IsArrow ≠ 0) (hv : (w.heap (s.Models i)).IsVisible ≠ 0) :
    ((Scene.Render E view proj s w).2.heap (s.Models i)).Scale
      = E.sqrtf ((Scene.netField E (w.heap (s.Models i)).Pos).x ^ 2
          + (Scene.netField E (w.heap (s.Models i)).Pos).y ^ 2
          + (Scene.netField E (w.heap (s.Models i)).Pos).z ^ 2) := by
  rw [Scene.Render_heap E view proj s w hd i hi, if_pos ha, if_pos hv, Scene.integrate_Scale]
  simp only [Vector3.Length, Vector3.LengthSq, sq]

/-- C6 on one visible arrow at the origin. -/
theorem C6_scale_is_field_length_witness :
    ((Scene.Render ratLib Matrix4.identity Matrix4.identity (Scene.pool 1)
        (World.test (Model.arrowAt ⟨0, 0, 0⟩ 1) fun _ => 0)).2.heap 0).Scale
      = ratSqrt ((Scene.netField ratLib ⟨0, 0, 0⟩).x ^ 2 + (Scene.netField ratLib ⟨0, 0, 0⟩).y ^ 2
          + (Scene.netField ratLib ⟨0, 0, 0⟩).z ^ 2) :=
  C6_scale_is_field_length ratLib Matrix4.identity Matrix4.identity (Scene.pool 1)
    (World.test (Model.arrowAt ⟨0, 0, 0⟩ 1) fun _ => 0) 0 (Scene.pool_distinct 1)
    (by decide) (by decide) (by decide)

/-- C7 as stated fails: `Scene::Render` renders a model that is not an arrow
through `Model::Render`, whose `GetMatrix` overwrites `Mat`; for the model
`Model(Vector3f(1,0,0), fill)` the stored identity becomes the translation. -/
theorem C7_mat_is_rewritten :
    ((World.test (Model.new (⟨1, 0, 0⟩ : Vector3 ℚ) 1) fun _ => 0).heap 0).IsArrow = 0
      ∧ ((Scene.Render ratLib Matrix4.identity Matrix4.identity (Scene.pool 1)
            (World.test (Model.new ⟨1, 0, 0⟩ 1) fun _ => 0)).2.heap 0).Mat
          ≠ ((World.test (Model.new (⟨1, 0, 0⟩ : Vector3 ℚ) 1) fun _ => 0).heap 0).Mat := by
  refine ⟨rfl, ?_⟩
  have h := Scene.Render_heap ratLib Matrix4.identity Matrix4.identity (Scene.pool 1)
    (World.test (Model.new (⟨1, 0, 0⟩ : Vector3 ℚ) 1) fun _ => 0) (Scene.pool_distinct 1) 0
    (by decide)
  have h0 : (Scene.pool 1).Models 0 = 0 := rfl
  rw [h0] at h
  rw [h]
  intro he
  have h03 := congrArg (fun M => M.M 0 3) he
  simp [World.test, Model.new, Model.Render, Model.GetMatrix, Matrix4.mul, Matrix4.identity,
    Matrix4.Translation, Matrix4.Scaling, Matrix4.ofQuat, Quat.identity] at h03

/-- C7, amended: `Scene::Render` leaves `numModels`, every `Models[i]` and the
allocator as they are, and of every model on the heap it keeps `IsArrow`, the
mesh, the material and the GPU buffers; of a model that is not an arrow it also
keeps `Pos`, `Scale`, `Rot` and `IsVisible`.  So what may change is the `Pos`,
`Scale`, `Rot`, `IsVisible` of arrow models and the cached `Mat`, and `Mat`
changes only in a model this call draws, to the matrix of a draw call made for
it; an object that is in no slot is left as it is; and in a pool of distinct
objects the `Mat` of an arrow inactive at the start is kept, while the `Mat`
of every other pool entry becomes the matrix of the `Pos`, `Scale` and `Rot`
the entry has after the call. -/
theorem C7_frame_effect (E : Lib F) (view proj : Matrix4 F) (s : Scene) (w : World F) :
    (Scene.Render E view proj s w).1.numModels = s.numModels
      ∧ (∀ i, (Scene.Render E view proj s w).1.Models i = s.Models i)
      ∧ (Scene.Render E view proj s w).2.brk = w.brk
      ∧ (∀ q,
          ((Scene.Render E view proj s w).2.heap q).IsArrow = (w.heap q).IsArrow
          ∧ ((Scene.Render E view proj s w).2.heap q).Vertices = (w.heap q).Vertices
          ∧ ((Scene.Render E view proj s w).2.heap q).Indices = (w.heap q).Indices
          ∧ ((Scene.Render E view proj s w).2.heap q).Fill = (w.heap q).Fill
          ∧ ((Scene.Render E view proj s w).2.heap q).vertexBuffer = (w.heap q).vertexBuffer
          ∧ ((Scene.Render E view proj s w).2.heap q).indexBuffer = (w.heap q).indexBuffer
          ∧ ((w.heap q).IsArrow = 0 →
              ((Scene.Render E view proj s w).2.heap q).Pos = (w.heap q).Pos
              ∧ ((Scene.Render E view proj s w).2.heap q).Scale = (w.heap q).Scale
              ∧ ((Scene.Render E view proj s w).2.heap q).Rot = (w.heap q).Rot
              ∧ ((Scene.Render E view proj s w).2.heap q).IsVisible = (w.heap q).IsVisible))
      ∧ (∃ dl, (Scene.Render E view proj s w).2.drawn = w.drawn ++ dl
          ∧ ∀ q, ((Scene.Render E view proj s w).2.heap q).Mat = (w.heap q).Mat
              ∨ ∃ d ∈ dl, d.model = q
                  ∧ ((Scene.Render E view proj s w).2.heap q).Mat = d.viewOnly)
      ∧ (∀ q, (∀ i, i < s.numModels → q ≠ s.Models i) →
          (Scene.Render E view proj s w).2.heap q = w.heap q)
      ∧ (s.Distinct → ∀ i, i < s.numModels →
          (((w.heap (s.Models i)).IsArrow ≠ 0 ∧ (w.heap (s.Models i)).IsVisible = 0) →
              ((Scene.Render E view proj s w).2.heap (s.Models i)).Mat
                = (w.heap (s.Models i)).Mat)
          ∧ (((w.heap (s.Models i)).IsArrow = 0 ∨ (w.heap (s.Models i)).IsVisible ≠ 0) →
              ((Scene.Render E view proj s w).2.heap (s.Models i)).Mat
                = (Matrix4.Translation
                      ((Scene.Render E view proj s w).2.heap (s.Models i)).Pos).mul
                    ((Matrix4.Scaling
                        ((Scene.Render E view proj s w).2.heap (s.Models i)).Scale).mul
                      (Matrix4.ofQuat
                        ((Scene.Render E view proj s w).2.heap (s.Models i)).Rot)))) := by
  refine ⟨rfl, fun _ => rfl, Scene.before_brk E view proj s w s.numModels,
    fun q => Scene.before_keeps E view proj s w s.numModels q,
    Scene.before_mat E view proj s w s.numModels,
    fun q hq => Scene.before_heap_untouched E view proj s w q s.numModels hq, ?_⟩
  intro hd i hi
  rw [Scene.Render_heap E view proj s w hd i hi]
  constructor
  · rintro ⟨ha, hv⟩
    rw [if_pos ha, if_neg (not_not.mpr hv), Scene.spawn_Mat]
  · intro h
    by_cases ha : (w.heap (s.Models i)).IsArrow ≠ 0
    · have hv : (w.heap (s.Models i)).IsVisible ≠ 0 := by
        rcases h with h | h
        · exact absurd h ha
        · exact h
      rw [if_pos ha, if_pos hv]
      exact (Scene.integrate_Mat E view proj _ _).2.2
    · rw [if_neg ha]
      exact (Model.Render_Mat _ view proj _).2.2

/-- C8 as stated fails for an inactive arrow: with the same `rand()` values,
two inactive arrows whose `Scale` differs before `Scene::Render` differ in
`Scale` after it, since the reactivation writes `IsVisible` and `Pos` only. -/
theorem C8_stale_scale :
    ((Scene.Render ratLib Matrix4.identity Matrix4.identity (Scene.pool 1)
          (World.test { Model.arrowAt (⟨0, 0, 0⟩ : Vector3 ℚ) 0 with Scale := 1 }
            fun n => 7 * n + 3)).2.heap 0).Scale
      ≠ ((Scene.Render ratLib Matrix4.identity Matrix4.identity (Scene.pool 1)
          (World.test { Model.arrowAt (⟨0, 0, 0⟩ : Vector3 ℚ) 0 with Scale := 2 }
            fun n => 7 * n + 3)).2.heap 0).Scale := by
  have h1 := Scene.Render_heap ratLib Matrix4.identity Matrix4.identity (Scene.pool 1)
    (World.test { Model.arrowAt (⟨0, 0, 0⟩ : Vector3 ℚ) 0 with Scale := 1 } fun n => 7 * n + 3)
    (Scene.pool_distinct 1) 0 (by decide)
  have h2 := Scene.Render_heap ratLib Matrix4.identity Matrix4.identity (Scene.pool 1)
    (World.test { Model.arrowAt (⟨0, 0, 0⟩ : Vector3 ℚ) 0 with Scale := 2 } fun n => 7 * n + 3)
    (Scene.pool_distinct 1) 0 (by decide)
  have h0 : (Scene.pool 1).Models 0 = 0 := rfl
  rw [h0] at h1 h2
  rw [h1, h2]
  simp [World.test, Model.arrowAt, Model.new, Scene.spawn_Scale]

/-- C8, amended: in pools of distinct objects, the `Pos`, `Scale`, `Rot` and
`IsVisible` that `Scene::Render` leaves in a visible arrow are determined by
its `Pos` and `IsVisible` before the call; for an inactive arrow the `Pos` and
`IsVisible` it leaves are determined by the three `randf()` draws made for
that arrow, and `Scale` and `Rot` are left as they were.  The other models,
the view and the projection have no influence. -/
theorem C8_no_cross_interaction (E : Lib F) (view1 proj1 view2 proj2 : Matrix4 F)
    (s1 s2 : Scene) (w1 w2 : World F) (i : Nat)
    (hd1 : s1.Distinct) (hd2 : s2.Distinct) (hi1 : i < s1.numModels) (hi2 : i < s2.numModels)
    (ha1 : (w1.heap (s1.Models i)).IsArrow ≠ 0) (ha2 : (w2.heap (s2.Models i)).IsArrow ≠ 0) :
    ((w1.heap (s1.Models i)).IsVisible ≠ 0 →
        (w2.heap (s2.Models i)).IsVisible = (w1.heap (s1.Models i)).IsVisible →
        (w2.heap (s2.Models i)).Pos = (w1.heap (s1.Models i)).Pos →
        ((Scene.Render E view2 proj2 s2 w2).2.heap (s2.Models i)).Pos
            = ((Scene.Render E view1 proj1 s1 w1).2.heap (s1.Models i)).Pos
          ∧ ((Scene.Render E view2 proj2 s2 w2).2.heap (s2.Models i)).Scale
            = ((Scene.Render E view1 proj1 s1 w1).2.heap (s1.Models i)).Scale
          ∧ ((Scene.Render E view2 proj2 s2 w2).2.heap (s2.Models i)).Rot
            = ((Scene.Render E view1 proj1 s1 w1).2.heap (s1.Models i)).Rot
          ∧ ((Scene.Render E view2 proj2 s2 w2).2.heap (s2.Models i)).IsVisible
            = ((Scene.Render E view1 proj1 s1 w1).2.heap (s1.Models i)).IsVisible)
      ∧ ((w1.heap (s1.Models i)).IsVisible = 0 →
          (w2.heap (s2.Models i)).IsVisible = 0 →
          (∀ j, 1 ≤ j → j ≤ 3 →
            w2.rand ((Scene.before E view2 proj2 s2 w2 i).calls + j)
              = w1.rand ((Scene.before E view1 proj1 s1 w1 i).calls + j)) →
          ((Scene.Render E view2 proj2 s2 w2).2.heap (s2.Models i)).Pos
              = ((Scene.Render E view1 proj1 s1 w1).2.heap (s1.Models i)).Pos
            ∧ ((Scene.Render E view2 proj2 s2 w2).2.heap (s2.Models i)).IsVisible
              = ((Scene.Render E view1 proj1 s1 w1).2.heap (s1.Models i)).IsVisible
            ∧ ((Scene.Render E view1 proj1 s1 w1).2.heap (s1.Models i)).Scale
              = (w1.heap (s1.Models i)).Scale
            ∧ ((Scene.Render E view1 proj1 s1 w1).2.heap (s1.Models i)).Rot
              = (w1.heap (s1.Models i)).Rot
            ∧ ((Scene.Render E view2 proj2 s2 w2).2.heap (s2.Models i)).Scale
              = (w2.heap (s2.Models i)).Scale
            ∧ ((Scene.Render E view2 proj2 s2 w2).2.heap (s2.Models i)).Rot
              = (w2.heap (s2.Models i)).Rot) := by
  have e1 := Scene.Render_heap E view1 proj1 s1 w1 hd1 i hi1
  have e2 := Scene.Render_heap E view2 proj2 s2 w2 hd2 i hi2
  rw [if_pos ha1] at e1
  rw [if_pos ha2] at e2
  constructor
  · intro hv1 hv hp
    have hv2 : (w2.heap (s2.Models i)).IsVisible ≠ 0 := by rw [hv]; exact hv1
    rw [if_pos hv1] at e1
    rw [if_pos hv2] at e2
    rw [e1, e2]
    simp only [Scene.integrate_Pos, Scene.integrate_Scale, Scene.integrate_Rot,
      Scene.integrate_IsVisible, hp, hv, and_self]
  · intro hv1 hv2 hr
    rw [if_neg (not_not.mpr hv1)] at e1
    rw [if_neg (not_not.mpr hv2)] at e2
    rw [e1, e2]
    simp only [Scene.spawn_Pos, Scene.spawn_IsVisible, Scene.spawn_Scale, Scene.spawn_Rot,
      hr 1 le_rfl (by norm_num), hr 2 (by norm_num) (by norm_num), hr 3 (by norm_num) le_rfl,
      and_self]

/-- C8 on two pools, one of a single arrow and one of two arrows: when the
first arrow is visible at the origin in both it ends the same in both, and when
it is inactive in both, with the same draws, it is reactivated at the same
place. -/
theorem C8_no_cross_interaction_witness :
    (((Scene.Render ratLib Matrix4.identity (Matrix4.Scaling 2) (Scene.pool 2)
          (World.test (Model.arrowAt ⟨0, 0, 0⟩ 1) fun n => n)).2.heap 0).Pos
        = ((Scene.Render ratLib Matrix4.identity Matrix4.identity (Scene.pool 1)
          (World.test (Model.arrowAt ⟨0, 0, 0⟩ 1) fun _ => 0)).2.heap 0).Pos
      ∧ ((Scene.Render ratLib Matrix4.identity (Matrix4.Scaling 2) (Scene.pool 2)
          (World.test (Model.arrowAt ⟨0, 0, 0⟩ 1) fun n => n)).2.heap 0).Scale
        = ((Scene.Render ratLib Matrix4.identity Matrix4.identity (Scene.pool 1)
          (World.test (Model.arrowAt ⟨0, 0, 0⟩ 1) fun _ => 0)).2.heap 0).Scale
      ∧ ((Scene.Render ratLib Matrix4.identity (Matrix4.Scaling 2) (Scene.pool 2)
          (World.test (Model.arrowAt ⟨0, 0, 0⟩ 1) fun n => n)).2.heap 0).Rot
        = ((Scene.Render ratLib Matrix4.identity Matrix4.identity (Scene.pool 1)
          (World.test (Model.arrowAt ⟨0, 0, 0⟩ 1) fun _ => 0)).2.heap 0).Rot
      ∧ ((Scene.Render ratLib Matrix4.identity (Matrix4.Scaling 2) (Scene.pool 2)
          (World.test (Model.arrowAt ⟨0, 0, 0⟩ 1) fun n => n)).2.heap 0).IsVisible
        = ((Scene.Render ratLib Matrix4.identity Matrix4.identity (Scene.pool 1)
          (World.test (Model.arrowAt ⟨0, 0, 0⟩ 1) fun _ => 0)).2.heap 0).IsVisible)
      ∧ ((Scene.Render ratLib Matrix4.identity (Matrix4.Scaling 2) (Scene.pool 2)
          (World.test (Model.arrowAt ⟨5, 0, 0⟩ 0) fun n => 7 * n + 3)).2.heap 0).Pos
        = ((Scene.Render ratLib Matrix4.identity Matrix4.identity (Scene.pool 1)
          (World.test (Model.arrowAt ⟨0, 0, 0⟩ 0) fun n => 7 * n + 3)).2.heap 0).Pos
      ∧ ((Scene.Render ratLib Matrix4.identity (Matrix4.Scaling 2) (Scene.pool 2)
          (World.test (Model.arrowAt ⟨5, 0, 0⟩ 0) fun n => 7 * n + 3)).2.heap 0).IsVisible
        = ((Scene.Render ratLib Matrix4.identity Matrix4.identity (Scene.pool 1)
          (World.test (Model.arrowAt ⟨0, 0, 0⟩ 0) fun n => 7 * n + 3)).2.heap 0).IsVisible :=
  ⟨(C8_no_cross_interaction ratLib Matrix4.identity Matrix4.identity Matrix4.identity
      (Matrix4.Scaling 2) (Scene.pool 1) (Scene.pool 2)
      (World.test (Model.arrowAt ⟨0, 0, 0⟩ 1) fun _ => 0)
      (World.test (Model.arrowAt ⟨0, 0, 0⟩ 1) fun n => n) 0
      (Scene.pool_distinct 1) (Scene.pool_distinct 2) (by decide) (by decide)
      (by decide) (by decide)).1 (by decide) rfl rfl,
    ((C8_no_cross_interaction ratLib Matrix4.identity Matrix4.identity Matrix4.identity
      (Matrix4.Scaling 2) (Scene.pool 1) (Scene.pool 2)
      (World.test (Model.arrowAt ⟨0, 0, 0⟩ 0) fun n => 7 * n + 3)
      (World.test (Model.arrowAt ⟨5, 0, 0⟩ 0) fun n => 7 * n + 3) 0
      (Scene.pool_distinct 1) (Scene.pool_distinct 2) (by decide) (by decide)
      (by decide) (by decide)).2 rfl rfl (fun _ _ _ => rfl)).1,
    ((C8_no_cross_interaction ratLib Matrix4.identity Matrix4.identity Matrix4.identity
      (Matrix4.Scaling 2) (Scene.pool 1) (Scene.pool 2)
      (World.test (Model.arrowAt ⟨0, 0, 0⟩ 0) fun n => 7 * n + 3)
      (World.test (Model.arrowAt ⟨5, 0, 0⟩ 0) fun n => 7 * n + 3) 0
      (Scene.pool_distinct 1) (Scene.pool_distinct 2) (by decide) (by decide)
      (by decide) (by decide)).2 rfl rfl (fun _ _ _ => rfl)).2.1⟩

/-- C9: for a visible arrow whose net field `f` is not zero, `Scene::Render`
sets `Rot` to `Quatf::Align(f/|f|, (0,0,1))`: the unit field direction first,
the reference axis `z` second.  The reference axis is the axis of the arrow
mesh: in every slice `AddArrow` makes, the apex is at `(0,0,1)` and every
vertex has its `z` between 0 and 1.  The square root is assumed exact. -/
theorem C9_rot_aligns_field (E : Lib F) (hE : E.Exact) (view proj : Matrix4 F) (s : Scene)
    (w : World F) (i : Nat) (hd : s.Distinct) (hi : i < s.numModels)
    (ha : (w.heap (s.Models i)).IsArrow ≠ 0) (hv : (w.heap (s.Models i)).IsVisible ≠ 0)
    (hf : Scene.netField E (w.heap (s.Models i)).Pos ≠ ⟨0, 0, 0⟩) :
    ((Scene.Render E view proj s w).2.heap (s.Models i)).Rot
        = E.Align
            ⟨(Scene.netField E (w.heap (s.Models i)).Pos).x
                / (Scene.netField E (w.heap (s.Models i)).Pos).Length E,
             (Scene.netField E (w.heap (s.Models i)).Pos).y
                / (Scene.netField E (w.heap (s.Models i)).Pos).Length E,
             (Scene.netField E (w.heap (s.Models i)).Pos).z
                / (Scene.netField E (w.heap (s.Models i)).Pos).Length E⟩
            ⟨0, 0, 1⟩
      ∧ ∀ k, ((Model.arrowSlice E k)[15]?).map Vertex.Pos = some ⟨0, 0, 1⟩
          ∧ ∀ v ∈ Model.arrowSlice E k, 0 ≤ v.Pos.z ∧ v.Pos.z ≤ 1 := by
  constructor
  · rw [Scene.Render_heap E view proj s w hd i hi, if_pos ha, if_pos hv, Scene.integrate_Rot]
    simp only [Vector3.Normalize, if_pos (Vector3.length_ne_zero hE hf), Vector3.scale,
      Scene.z, mul_one_div]
  · intro k
    refine ⟨rfl, ?_⟩
    intro v hv
    simp only [Model.arrowSlice, Model.arrowVertex, List.mem_cons, List.mem_singleton,
      List.not_mem_nil, or_false] at hv
    rcases hv with h | h | h | h | h | h | h | h | h | h | h | h | h | h | h | h | h | h <;>
      subst h <;> norm_num

/-- C9 on one visible arrow at the origin, over the reals, where the net field
is `(1/2, 0, 0)`. -/
theorem C9_rot_aligns_field_witness :
    ((Scene.Render (Lib.test Real.sqrt Real.cos Real.sin) Matrix4.identity Matrix4.identity
        (Scene.pool 1) (World.test (Model.arrowAt ⟨0, 0, 0⟩ 1) fun _ => 0)).2.heap 0).Rot
        = (Lib.test Real.sqrt Real.cos Real.sin).Align
            ⟨(Scene.netField (Lib.test Real.sqrt Real.cos Real.sin) ⟨0, 0, 0⟩).x
                / (Scene.netField (Lib.test Real.sqrt Real.cos Real.sin) ⟨0, 0, 0⟩).Length
                    (Lib.test Real.sqrt Real.cos Real.sin),
             (Scene.netField (Lib.test Real.sqrt Real.cos Real.sin) ⟨0, 0, 0⟩).y
                / (Scene.netField (Lib.test Real.sqrt Real.cos Real.sin) ⟨0, 0, 0⟩).Length
                    (Lib.test Real.sqrt Real.cos Real.sin),
             (Scene.netField (Lib.test Real.sqrt Real.cos Real.sin) ⟨0, 0, 0⟩).z
                / (Scene.netField (Lib.test Real.sqrt Real.cos Real.sin) ⟨0, 0, 0⟩).Length
                    (Lib.test Real.sqrt Real.cos Real.sin)⟩
            ⟨0, 0, 1⟩
      ∧ ∀ k, ((Model.arrowSlice (Lib.test Real.sqrt Real.cos Real.sin) k)[15]?).map Vertex.Pos
            = some ⟨0, 0, 1⟩
          ∧ ∀ v ∈ Model.arrowSlice (Lib.test Real.sqrt Real.cos Real.sin) k,
              0 ≤ v.Pos.z ∧ v.Pos.z ≤ 1 :=
  C9_rot_aligns_field (Lib.test Real.sqrt Real.cos Real.sin) (real_exact _ _)
    Matrix4.identity Matrix4.identity (Scene.pool 1)
    (World.test (Model.arrowAt ⟨0, 0, 0⟩ 1) fun _ => 0) 0 (Scene.pool_distinct 1)
    (by decide) (by decide) (by decide)
    (by
      have h : Scene.netField (Lib.test Real.sqrt Real.cos Real.sin) (⟨0, 0, 0⟩ : Vector3 ℝ)
          = ⟨1 / 2, 0, 0⟩ := Scene.netField_origin (real_exact _ _)
      show Scene.netField (Lib.test Real.sqrt Real.cos Real.sin) (⟨0, 0, 0⟩ : Vector3 ℝ) ≠ ⟨0, 0, 0⟩
      rw [h]
      intro he
      injection he with hx
      norm_num at hx)

end Claims

section InitClaims

variable {F : Type} [LinearOrderedField F] [FloorRing F]

/-- C10: `Scene::Init` on an empty scene returns (no assertion fails), with
`numModels = 103`: the slots `0 .. 99` hold arrows with `IsArrow = 1` and
`IsVisible = 0`, the slots `100, 101, 102` hold the walls, the floor and the
ceiling (materials 1, 0, 2) with `IsArrow = 0`, and the 103 objects are
distinct. -/
theorem C10_init_pool (E : Lib F) (includeIntensiveGPUobject : Int) (garbage : Nat → Nat)
    (w : World F) :
    ∃ s' w', Scene.Init E includeIntensiveGPUobject (Scene.empty garbage) w = some (s', w')
      ∧ s'.numModels = 103
      ∧ (∀ i, i < 100 →
          (w'.heap (s'.Models i)).IsArrow = 1 ∧ (w'.heap (s'.Models i)).IsVisible = 0)
      ∧ (∀ i, 100 ≤ i → i < 103 → (w'.heap (s'.Models i)).IsArrow = 0)
      ∧ (w'.heap (s'.Models 100)).Fill = 1 ∧ (w'.heap (s'.Models 101)).Fill = 0
      ∧ (w'.heap (s'.Models 102)).Fill = 2
      ∧ s'.Distinct := by
  obtain ⟨s0, w0, e0, n0, b0, m0, _, a0, _⟩ :=
    Scene.initArrows_ok E 100 (Scene.empty garbage) w (by simp [Scene.empty])
  have n0' : s0.numModels = 100 := by simpa [Scene.empty] using n0
  have m0' : ∀ j, j < 100 → s0.Models j = w.brk + j := by
    intro j hj
    simpa [Scene.empty] using m0 j hj
  unfold Scene.Init
  simp only [Scene.maxArrows, e0]
  -- the walls
  obtain ⟨A, wa, ea, hA, ba, va, ia, fa, ka⟩ := World.new_ok w0 Vector3.zero 1
  rw [ea]
  dsimp only
  obtain ⟨wa1, e1, b1, v1, t1⟩ :=
    Scene.addBox_tags E A (-10) (-10) (-10) (-10 - 1 / 10) 10 10 wa (by omega)
  obtain ⟨wa2, e2, b2, v2, t2⟩ :=
    Scene.addBox_tags E A 10 (-10) (-10) (10 + 1 / 10) 10 10 wa1 (by omega)
  obtain ⟨wa3, e3, b3, v3, t3⟩ :=
    Scene.addBox_tags E A (-10) (-10) (-10) 10 10 (-10 - 1 / 10) wa2 (by omega)
  obtain ⟨wa4, e4, b4, v4, t4⟩ :=
    Scene.addBox_tags E A (-10) (-10) 10 10 10 (10 + 1 / 10) wa3 (by omega)
  obtain ⟨wa5, e5, b5, t5⟩ := World.allocate_ok wa4 A
  simp only [e1, e2, e3, e4, e5, Scene.Add, n0', show (100 : Nat) < 5000 by norm_num, if_true]
  -- the floor
  obtain ⟨B, wb, eb, hB, bb, vb, ib, fb, kb⟩ := World.new_ok wa5 Vector3.zero 0
  rw [eb]
  dsimp only
  obtain ⟨wb1, e6, b6, v6, t6⟩ :=
    Scene.addBox_tags E B (-10) (-10) (-10) 10 (-10 - 1 / 10) 10 wb (by omega)
  obtain ⟨wb2, e7, b7, t7⟩ := World.allocate_ok wb1 B
  simp only [e6, e7, show (100 + 1 : Nat) < 5000 by norm_num, if_true]
  -- the ceiling
  obtain ⟨C, wc, ec, hC, bc, vc, ic, fc, kc⟩ := World.new_ok wb2 Vector3.zero 2
  rw [ec]
  dsimp only
  obtain ⟨wc1, e8, b8, v8, t8⟩ :=
    Scene.addBox_tags E C (-10) 10 (-10) 10 (10 + 1 / 10) 10 wc (by omega)
  obtain ⟨wc2, e9, b9, t9⟩ := World.allocate_ok wc1 C
  simp only [e8, e9, show (100 + 1 + 1 : Nat) < 5000 by norm_num, if_true]
  -- the addresses, the slots, and what is left at each address
  have hA' : A = w.brk + 100 := by omega
  have hB' : B = w.brk + 101 := by omega
  have hC' : C = w.brk + 102 := by omega
  have hM : ∀ i, i < 103 →
      Function.update (Function.update (Function.update s0.Models 100 A) (100 + 1) B)
        (100 + 1 + 1) C i = w.brk + i := by
    intro i hi
    by_cases h2 : i = 102
    · subst h2
      rw [Function.update_same, hC']
    · rw [Function.update_noteq (by omega)]
      by_cases h1 : i = 101
      · subst h1
        rw [Function.update_same, hB']
      · rw [Function.update_noteq (by omega)]
        by_cases h0 : i = 100
        · subst h0
          rw [Function.update_same, hA']
        · rw [Function.update_noteq h0]
          exact m0' i (by omega)
  have Tc : ∀ q, (wc2.heap q).IsArrow = (wc.heap q).IsArrow
      ∧ (wc2.heap q).IsVisible = (wc.heap q).IsVisible ∧ (wc2.heap q).Fill = (wc.heap q).Fill :=
    fun q => ⟨(t9 q).1.trans (t8 q).1, (t9 q).2.1.trans (t8 q).2.1, (t9 q).2.2.trans (t8 q).2.2⟩
  have Tb : ∀ q, q ≠ C → (wc2.heap q).IsArrow = (wb.heap q).IsArrow
      ∧ (wc2.heap q).IsVisible = (wb.heap q).IsVisible ∧ (wc2.heap q).Fill = (wb.heap q).Fill := by
    intro q hq
    obtain ⟨c1, c2, c3⟩ := Tc q
    rw [kc q hq] at c1 c2 c3
    exact ⟨c1.trans ((t7 q).1.trans (t6 q).1), c2.trans ((t7 q).2.1.trans (t6 q).2.1),
      c3.trans ((t7 q).2.2.trans (t6 q).2.2)⟩
  have Ta : ∀ q, q ≠ C → q ≠ B → (wc2.heap q).IsArrow = (wa.heap q).IsArrow
      ∧ (wc2.heap q).IsVisible = (wa.heap q).IsVisible ∧ (wc2.heap q).Fill = (wa.heap q).Fill := by
    intro q hq hq'
    obtain ⟨c1, c2, c3⟩ := Tb q hq
    rw [kb q hq'] at c1 c2 c3
    exact
      ⟨c1.trans ((t5 q).1.trans ((t4 q).1.trans ((t3 q).1.trans ((t2 q).1.trans (t1 q).1)))),
       c2.trans ((t5 q).2.1.trans ((t4 q).2.1.trans ((t3 q).2.1.trans
          ((t2 q).2.1.trans (t1 q).2.1)))),
       c3.trans ((t5 q).2.2.trans ((t4 q).2.2.trans ((t3 q).2.2.trans
          ((t2 q).2.2.trans (t1 q).2.2))))⟩
  have T0 : ∀ q, q ≠ C → q ≠ B → q ≠ A → (wc2.heap q).IsArrow = (w0.heap q).IsArrow
      ∧ (wc2.heap q).IsVisible = (w0.heap q).IsVisible := by
    intro q hq hq' hq''
    obtain ⟨c1, c2, _⟩ := Ta q hq hq'
    rw [ka q hq''] at c1 c2
    exact ⟨c1, c2⟩
  refine ⟨_, _, rfl, rfl, ?_, ?_, ?_, ?_, ?_, ?_⟩
  · intro i hi
    dsimp only
    rw [hM i (by omega)]
    obtain ⟨c1, c2⟩ := T0 (w.brk + i) (by omega) (by omega) (by omega)
    rw [c1, c2]
    exact a0 i hi
  · intro i h100 h103
    dsimp only
    rw [hM i h103]
    by_cases h2 : i = 102
    · subst h2
      rw [← hC', (Tc C).1, ic]
    · by_cases h1 : i = 101
      · subst h1
        rw [← hB', (Tb B (by omega)).1, ib]
      · have h0 : i = 100 := by omega
        subst h0
        rw [← hA', (Ta A (by omega) (by omega)).1, ia]
  · dsimp only
    rw [hM 100 (by norm_num), ← hA', (Ta A (by omega) (by omega)).2.2, fa]
  · dsimp only
    rw [hM 101 (by norm_num), ← hB', (Tb B (by omega)).2.2, fb]
  · dsimp only
    rw [hM 102 (by norm_num), ← hC', (Tc C).2.2, fc]
  · intro i j hi hj h
    dsimp only at hi hj h
    rw [hM i (by omega), hM j (by omega)] at h
    omega

end InitClaims

section RoundingLemmas

namespace Binary32

/-- A rational within less than a half of the integer `n` rounds to `n`. -/
theorem roundEven_eq (q : ℚ) (n : ℤ) (h1 : (n : ℚ) - 1 / 2 < q) (h2 : q < n + 1 / 2) :
    roundEven q = n := by
  unfold roundEven
  have hf : Int.floor q = n ∨ Int.floor q = n - 1 := by
    have a : n - 1 ≤ Int.floor q := by
      rw [Int.le_floor]; push_cast; linarith
    have b : Int.floor q < n + 1 := by
      rw [Int.floor_lt]; push_cast; linarith
    omega
  rcases hf with hf | hf
  · have hq : (n : ℚ) ≤ q := by rw [← hf]; exact Int.floor_le q
    simp only [hf]
    rw [if_pos (by linarith)]
  · have hq : q < n := by
      have := Int.lt_floor_add_one q
      rw [hf] at this; push_cast at this; linarith
    simp only [hf]
    rw [if_neg (by push_cast; linarith), if_pos (by push_cast; linarith)]
    ring

/-- The binary exponent of `x` is `e` when `2 ^ e ≤ x < 2 ^ (e + 1)`. -/
theorem log_eq_of_bounds (x : ℚ) (e : ℤ) (h1 : (2 : ℚ) ^ e ≤ x) (h2 : x < (2 : ℚ) ^ (e + 1)) :
    Int.log 2 x = e := by
  have a : e ≤ Int.log 2 x := (Int.zpow_le_iff_le_log (by norm_num) (lt_of_lt_of_le (by positivity) h1)).1 (by exact_mod_cast h1)
  have b : Int.log 2 x < e + 1 := (Int.lt_zpow_iff_log_lt (by norm_num) (lt_of_lt_of_le (by positivity) h1)).1 (by exact_mod_cast h2)
  omega

/-- On a number that is not negative `fl` is `flPos`. -/
theorem fl_of_nonneg (x : ℚ) (hx : 0 ≤ x) : fl x = flPos x := by
  unfold fl
  rw [if_neg (by linarith)]

/-- Evaluation of `flPos`: with `2 ^ e ≤ x < 2 ^ (e + 1)` and `x / 2 ^ (e -
23)` within less than a half of the integer `m`, the result is `m * 2 ^ (e -
23)`. -/
theorem flPos_eval (x : ℚ) (e m : ℤ) (h1 : (2 : ℚ) ^ e ≤ x) (h2 : x < (2 : ℚ) ^ (e + 1))
    (h3 : (m : ℚ) - 1 / 2 < x / 2 ^ (e - 23)) (h4 : x / 2 ^ (e - 23) < m + 1 / 2) :
    flPos x = m * 2 ^ (e - 23) := by
  have hx : 0 < x := lt_of_lt_of_le (by positivity) h1
  unfold flPos ulp
  rw [if_neg hx.ne', log_eq_of_bounds x e h1 h2, roundEven_eq _ m h3 h4]

/-- The literal `0.1f` as binary32 rounds it: `13421773 * 2 ^ (-27)`, the
value with the bit pattern `0x3DCCCCCD`. -/
theorem fl_tenth : fl (1 / 10) = 13421773 / 134217728 := by
  rw [fl_of_nonneg _ (by norm_num), flPos_eval _ (-4) 13421773 (by norm_num) (by norm_num)
    (by norm_num) (by norm_num)]
  norm_num

/-- A tie goes to the even neighbour: `2.5` rounds to `2` and `3.5` to `4`. -/
theorem roundEven_ties : roundEven (5 / 2) = 2 ∧ roundEven (7 / 2) = 4 := by
  have h2 : Int.floor (5 / 2 : ℚ) = 2 := by
    rw [Int.floor_eq_iff]
    norm_num
  have h3 : Int.floor (7 / 2 : ℚ) = 3 := by
    rw [Int.floor_eq_iff]
    norm_num
  constructor
  · unfold roundEven
    simp only [h2]
    norm_num
  · unfold roundEven
    simp only [h3]
    norm_num

end Binary32

end RoundingLemmas

section FieldLemmas

variable {F : Type} [LinearOrderedField F]

end FieldLemmas

section DrawLemmas

variable {F : Type} [LinearOrderedField F]

theorem Model.Render_draw (self : Nat) (view proj : Matrix4 F) (m : Model F) :
    (m.Render self view proj).2.model = self
      ∧ (m.Render self view proj).2.viewOnly
          = (Matrix4.Translation m.Pos).mul ((Matrix4.Scaling m.Scale).mul (Matrix4.ofQuat m.Rot))
      ∧ (m.Render self view proj).1.Pos = m.Pos ∧ (m.Render self view proj).1.Scale = m.Scale
      ∧ (m.Render self view proj).1.Rot = m.Rot :=
  ⟨rfl, rfl, rfl, rfl, rfl⟩

/-- The draw call of the integrate branch carries the matrix of the `Pos`,
`Scale` and `Rot` the branch leaves in the model. -/
theorem Scene.integrate_draw (E : Lib F) (view proj : Matrix4 F) (self : Nat) (m : Model F) :
    (Scene.integrate E view proj self m).2.model = self
      ∧ (Scene.integrate E view proj self m).2.viewOnly
          = (Matrix4.Translation (Scene.integrate E view proj self m).1.Pos).mul
              ((Matrix4.Scaling (Scene.integrate E view proj self m).1.Scale).mul
                (Matrix4.ofQuat (Scene.integrate E view proj self m).1.Rot)) := by
  unfold Scene.integrate Model.Render Model.GetMatrix
  dsimp only
  split_ifs <;> exact ⟨rfl, rfl⟩

theorem Scene.renderStep_drawn (E : Lib F) (s : Scene) (view proj : Matrix4 F)
    (w : World F) (i : Nat) :
    (Scene.renderStep E s view proj w i).drawn
      = w.drawn ++ (Scene.drawOf E view proj s w i).toList := by
  unfold Scene.renderStep Scene.drawOf
  dsimp only
  split_ifs <;> simp [World.store]

theorem Scene.drawOf_congr (E : Lib F) (view proj : Matrix4 F) (s : Scene) (w w' : World F)
    (i : Nat) (h : w'.heap (s.Models i) = w.heap (s.Models i)) :
    Scene.drawOf E view proj s w' i = Scene.drawOf E view proj s w i := by
  unfold Scene.drawOf
  rw [h]

/-- In a pool of distinct objects, the draw calls of the first `i` iterations
are those of the slots `0 .. i-1`, each taken from the state at the start of
the call. -/
theorem Scene.before_drawn (E : Lib F) (view proj : Matrix4 F) (s : Scene) (w : World F)
    (hd : s.Distinct) (i : Nat) (hi : i ≤ s.numModels) :
    (Scene.before E view proj s w i).drawn
      = w.drawn ++ (List.range i).filterMap (Scene.drawOf E view proj s w) := by
  induction i with
  | zero => simp [Scene.before_zero]
  | succ i ih =>
    have hu : (Scene.before E view proj s w i).heap (s.Models i) = w.heap (s.Models i) := by
      apply Scene.before_heap_untouched
      intro j hj he
      have := hd i j (by omega) (by omega) he
      omega
    rw [Scene.before_succ, Scene.renderStep_drawn, ih (by omega),
      Scene.drawOf_congr E view proj s w _ i hu, List.range_succ, List.filterMap_append,
      List.append_assoc]
    cases hdo : Scene.drawOf E view proj s w i <;> simp [List.filterMap_cons, hdo]

theorem Scene.drawOf_model (E : Lib F) (view proj : Matrix4 F) (s : Scene) (w : World F)
    (i : Nat) (d : DrawCall F) (h : Scene.drawOf E view proj s w i = some d) :
    d.model = s.Models i
      ∧ ((w.heap (s.Models i)).IsArrow = 0 ∨ (w.heap (s.Models i)).IsVisible ≠ 0) := by
  unfold Scene.drawOf at h
  split_ifs at h with ha hv
  · injection h with h
    rw [← h]
    exact ⟨(Scene.integrate_draw E view proj _ _).1, Or.inr hv⟩
  · injection h with h
    rw [← h]
    exact ⟨rfl, Or.inl (not_not.mp ha)⟩

theorem Scene.drawOf_isSome (E : Lib F) (view proj : Matrix4 F) (s : Scene) (w : World F)
    (i : Nat) :
    (Scene.drawOf E view proj s w i).isSome
      = decide ((w.heap (s.Models i)).IsArrow = 0 ∨ (w.heap (s.Models i)).IsVisible ≠ 0) := by
  unfold Scene.drawOf
  split_ifs with ha hv
  · simp [hv]
  · simp [ha, not_not.mp hv]
  · simp [not_not.mp ha]

/-- The models of the draw calls of a list of slots are the models of the
slots that are drawn, in the order of the list. -/
theorem Scene.drawn_models (E : Lib F) (view proj : Matrix4 F) (s : Scene) (w : World F)
    (l : List Nat) :
    (l.filterMap (Scene.drawOf E view proj s w)).map DrawCall.model
      = (l.filter fun i => decide ((w.heap (s.Models i)).IsArrow = 0
            ∨ (w.heap (s.Models i)).IsVisible ≠ 0)).map s.Models := by
  induction l with
  | nil => rfl
  | cons i rest ih =>
    have hs := Scene.drawOf_isSome E view proj s w i
    cases hdo : Scene.drawOf E view proj s w i with
    | none =>
      rw [hdo] at hs
      have hf : decide ((w.heap (s.Models i)).IsArrow = 0
          ∨ (w.heap (s.Models i)).IsVisible ≠ 0) = false := by
        simpa using hs.symm
      simp only [List.filterMap_cons, hdo, List.filter_cons, hf, ih, Bool.false_eq_true,
        if_false]
    | some d =>
      rw [hdo] at hs
      have hf : decide ((w.heap (s.Models i)).IsArrow = 0
          ∨ (w.heap (s.Models i)).IsVisible ≠ 0) = true := by
        simpa using hs.symm
      simp only [List.filterMap_cons, hdo, List.filter_cons, hf, if_true, List.map_cons, ih,
        (Scene.drawOf_model E view proj s w i d hdo).1]

omit [LinearOrderedField F] in
/-- Counting a pool entry in the image of a list of slots is counting its
slot, when the pool entries are distinct. -/
theorem Scene.count_models (s : Scene) (hd : s.Distinct) (i : Nat) (hi : i < s.numModels)
    (l : List Nat) (hl : ∀ j ∈ l, j < s.numModels) :
    (l.map s.Models).count (s.Models i) = l.count i := by
  induction l with
  | nil => rfl
  | cons j rest ih =>
    have hj := hl j (List.mem_cons_self j rest)
    have ih' := ih fun k hk => hl k (List.mem_cons_of_mem j hk)
    by_cases hji : j = i
    · subst hji
      simp [ih']
    · have hne : s.Models j ≠ s.Models i := fun he => hji (hd j i hj hi he)
      rw [List.map_cons, List.count_cons_of_ne (Ne.symm hne) , List.count_cons_of_ne (Ne.symm hji), ih']

end DrawLemmas

section BuilderLemmas

variable {F : Type} [LinearOrderedField F] [FloorRing F]

theorem Model.boxVertices_length (E : Lib F) (rand : Nat → Nat) (c : Nat)
    (rows : List (Vector3 F × Vector3 F)) (k : Nat) :
    (Model.boxVertices E rand c rows k).length = rows.length := by
  induction rows generalizing k with
  | nil => rfl
  | cons row rest ih => simp [Model.boxVertices, ih]

theorem Model.boxVertices_Pos (E : Lib F) (rand : Nat → Nat) (c : Nat)
    (rows : List (Vector3 F × Vector3 F)) (k : Nat) :
    (Model.boxVertices E rand c rows k).map Vertex.Pos = rows.map fun row => row.1 := by
  induction rows generalizing k with
  | nil => rfl
  | cons row rest ih => simp [Model.boxVertices, ih]

theorem Model.boxVertices_U (E : Lib F) (rand : Nat → Nat) (c : Nat)
    (rows : List (Vector3 F × Vector3 F)) (k : Nat) :
    (Model.boxVertices E rand c rows k).map Vertex.U = rows.map fun row => row.2.x := by
  induction rows generalizing k with
  | nil => rfl
  | cons row rest ih => simp [Model.boxVertices, ih]

theorem Model.boxVertices_V (E : Lib F) (rand : Nat → Nat) (c : Nat)
    (rows : List (Vector3 F × Vector3 F)) (k : Nat) :
    (Model.boxVertices E rand c rows k).map Vertex.V = rows.map fun row => row.2.y := by
  induction rows generalizing k with
  | nil => rfl
  | cons row rest ih => simp [Model.boxVertices, ih]

omit [LinearOrderedField F] [FloorRing F] in
/-- The index loop of the box builders, in full: it returns when
`numVertices < 2000`, whatever `numIndices` is. -/
theorem Model.addBoxIndices_eq (cis : List Nat) (m : Model F) (h : m.numVertices < 2000) :
    Model.addBoxIndices cis m
      = some { m with Indices := m.Indices
                ++ cis.map fun ci => (ci + m.numVertices % 65536) % 65536 } := by
  induction cis generalizing m with
  | nil => simp [Model.addBoxIndices]
  | cons ci rest ih =>
    have h1 : (({ m with Indices := m.Indices ++ [(ci + m.numVertices % 65536) % 65536] } :
        Model F)).numVertices < 2000 := h
    simp only [Model.addBoxIndices, Model.AddIndex, h1, if_true]
    rw [ih _ h1]
    simp [Model.numVertices, List.append_assoc]

/-- The vertex loop of the box builders, in full. -/
theorem Model.addBoxVertices_eq (E : Lib F) (rand : Nat → Nat) (c : Nat)
    (rows : List (Vector3 F × Vector3 F)) (m : Model F) (k : Nat)
    (h : m.numVertices + rows.length < 2000) :
    Model.addBoxVertices E rand c rows m k
      = some ({ m with Vertices := m.Vertices ++ Model.boxVertices E rand c rows k },
              k + rows.length) := by
  induction rows generalizing m k with
  | nil => simp [Model.addBoxVertices, Model.boxVertices]
  | cons row rest ih =>
    obtain ⟨p, t⟩ := row
    simp only [List.length_cons] at h
    have h1 : (({ m with Vertices := m.Vertices ++
        [{ Pos := p, Normal := Vector3.zero, C := Model.boxColor E p c (rand k),
           U := t.x, V := t.y }] } : Model F)).numVertices < 2000 := by
      simp only [Model.numVertices, List.length_append, List.length_singleton] at h ⊢
      omega
    simp only [Model.addBoxVertices, Model.AddVertex, h1, if_true]
    rw [ih _ _ (by
      simp only [Model.numVertices, List.length_append, List.length_singleton] at h ⊢
      omega)]
    simp only [Model.boxVertices, List.append_assoc, List.singleton_append, List.length_cons]
    congr 2
    omega

theorem Model.cubeIndices_lt : ∀ ci ∈ Model.CubeIndices, ci < 24 := by decide

theorem Model.cubeIndices_shift (n : Nat) (h : n + 24 < 2000) :
    (Model.CubeIndices.map fun ci => (ci + n % 65536) % 65536)
      = Model.CubeIndices.map fun ci => ci + n := by
  apply List.map_congr_left
  intro ci hci
  have := Model.cubeIndices_lt ci hci
  omega

/-- The method `AddSolidColorBox`, in full, on a model with room for 24
vertices. -/
theorem Model.AddSolidColorBox_eq (E : Lib F) (rand : Nat → Nat) (x1 y1 z1 x2 y2 z2 : F)
    (c : Nat) (m : Model F) (k : Nat) (h : m.numVertices + 24 < 2000) :
    m.AddSolidColorBox E rand x1 y1 z1 x2 y2 z2 c k
      = some ({ m with
                Indices := m.Indices ++ Model.CubeIndices.map fun ci => ci + m.numVertices,
                Vertices := m.Vertices
                  ++ Model.boxVertices E rand c (Model.boxVert x1 y1 z1 x2 y2 z2) k },
              k + 24) := by
  have hl : (Model.boxVert x1 y1 z1 x2 y2 z2).length = 24 := rfl
  unfold Model.AddSolidColorBox
  rw [Model.addBoxIndices_eq _ _ (by omega), Model.cubeIndices_shift _ h]
  dsimp only
  rw [Model.addBoxVertices_eq _ _ _ _ _ _ (by rw [hl]; exact h), hl]

omit [FloorRing F] in
theorem Model.pyramidVert_length (x1 y1 z1 x2 y2 z2 : F) :
    (Model.pyramidVert x1 y1 z1 x2 y2 z2).length = 24 := by
  simp [Model.pyramidVert, Model.boxVert]

/-- The method `AddColorPyramid`, in full, on a model with room for 24
vertices. -/
theorem Model.AddColorPyramid_eq (E : Lib F) (rand : Nat → Nat) (x1 y1 z1 x2 y2 z2 : F)
    (c : Nat) (m : Model F) (k : Nat) (h : m.numVertices + 24 < 2000) :
    m.AddColorPyramid E rand x1 y1 z1 x2 y2 z2 c k
      = some ({ m with
                Indices := m.Indices ++ Model.CubeIndices.map fun ci => ci + m.numVertices,
                Vertices := m.Vertices
                  ++ Model.boxVertices E rand c (Model.pyramidVert x1 y1 z1 x2 y2 z2) k },
              k + 24) := by
  have hl := Model.pyramidVert_length x1 y1 z1 x2 y2 z2
  unfold Model.AddColorPyramid
  rw [Model.addBoxIndices_eq _ _ (by omega), Model.cubeIndices_shift _ h]
  dsimp only
  rw [Model.addBoxVertices_eq _ _ _ _ _ _ (by rw [hl]; exact h), hl]

omit [LinearOrderedField F] [FloorRing F] in
/-- After a call of `AddVertex` that returns, `numVertices < 2000`. -/
theorem Model.AddVertex_bound (m m' : Model F) (v : Vertex F) (h : m.AddVertex v = some m') :
    m'.numVertices < 2000 := by
  unfold Model.AddVertex at h
  dsimp only at h
  split_ifs at h with hc
  injection h with h
  rw [← h]
  exact hc

omit [LinearOrderedField F] [FloorRing F] in
/-- After a call of `AddIndex` that returns, `numVertices < 2000`; nothing
bounds `numIndices`. -/
theorem Model.AddIndex_bound (m m' : Model F) (a : Nat) (h : m.AddIndex a = some m') :
    m'.numVertices < 2000 ∧ m'.numIndices = m.numIndices + 1 := by
  unfold Model.AddIndex at h
  dsimp only at h
  split_ifs at h with hc
  injection h with h
  rw [← h]
  exact ⟨hc, by simp [Model.numIndices]⟩

/-- Repeated calls of `AddSolidColorBox` return while the vertices fit, and
add 24 vertices and 36 indices each. -/
theorem Model.boxes_ok (E : Lib F) (rand : Nat → Nat) (x1 y1 z1 x2 y2 z2 : F) (c : Nat)
    (n : Nat) (m : Model F) (k : Nat) (h : m.numVertices + 24 * n < 2000) :
    ∃ m' k', Scene.times (fun mk => mk.1.AddSolidColorBox E rand x1 y1 z1 x2 y2 z2 c mk.2) n
        (m, k) = some (m', k')
      ∧ m'.numVertices = m.numVertices + 24 * n ∧ m'.numIndices = m.numIndices + 36 * n := by
  induction n generalizing m k with
  | zero => exact ⟨m, k, rfl, rfl, rfl⟩
  | succ n ih =>
    obtain ⟨m1, e1, v1, i1, _⟩ :=
      Model.AddSolidColorBox_ok E rand x1 y1 z1 x2 y2 z2 c m k (by omega)
    obtain ⟨m2, k2, e2, v2, i2⟩ := ih m1 (k + 24) (by omega)
    refine ⟨m2, k2, ?_, by omega, by omega⟩
    simp only [Scene.times, e1, e2]

omit [FloorRing F] in
/-- Repeated calls of `AddIndex` return as long as `numVertices < 2000`. -/
theorem Model.indices_ok (a : Nat) (n : Nat) (m : Model F) (h : m.numVertices < 2000) :
    ∃ m', Scene.times (fun m => m.AddIndex a) n m = some m'
      ∧ m'.numVertices = m.numVertices ∧ m'.numIndices = m.numIndices + n := by
  induction n generalizing m with
  | zero => exact ⟨m, rfl, rfl, rfl⟩
  | succ n ih =>
    obtain ⟨m1, e1, v1, i1, _⟩ := Model.AddIndex_ok m a h
    obtain ⟨m2, e2, v2, i2⟩ := ih m1 (by omega)
    refine ⟨m2, ?_, by omega, by omega⟩
    simp only [Scene.times, e1, e2]

omit [LinearOrderedField F] [FloorRing F] in
theorem Model.cubeIndices_faces :
    ∀ f, f < 6 → ∀ b, b < 24 →
      (b ∈ (Model.CubeIndices.drop (6 * f)).take 6 ↔ 4 * f ≤ b ∧ b < 4 * f + 4) := by
  decide

end BuilderLemmas

section RunLemmas

variable {σ : Type}

/-- The trace of the loop of `OGL::Run`: full iterations, then either the stop
(`HandleMessages()` false, or `MainLoop(true)` false) or the end of the fuel
after `fuel` full iterations. -/
theorem OGL.runLoop_shape (env : OGL.Env σ) (fuel : Nat) (s : σ) :
    ∃ n last, n ≤ fuel
      ∧ (OGL.runLoop env fuel s).1 = (List.replicate n OGL.iteration).flatten ++ last
      ∧ (((OGL.runLoop env fuel s).2.1 = OGL.Outcome.returned
            ∧ (last = [OGL.Event.handleMessages false]
                ∨ last = [OGL.Event.handleMessages true, OGL.Event.mainLoop true false]))
          ∨ ((OGL.runLoop env fuel s).2.1 = OGL.Outcome.running ∧ last = [] ∧ n = fuel)) := by
  induction fuel generalizing s with
  | zero => exact ⟨0, [], le_rfl, rfl, Or.inr ⟨rfl, rfl, rfl⟩⟩
  | succ fuel ih =>
    unfold OGL.runLoop
    cases hh : (env.HandleMessages s).1 with
    | false =>
      refine ⟨0, [OGL.Event.handleMessages false], Nat.zero_le _, ?_, Or.inl ⟨?_, Or.inl rfl⟩⟩
      · simp [hh]
      · simp [hh]
    | true =>
      cases hr : (env.MainLoop true (env.HandleMessages s).2).1 with
      | false =>
        refine ⟨0, [OGL.Event.handleMessages true, OGL.Event.mainLoop true false],
          Nat.zero_le _, ?_, Or.inl ⟨?_, Or.inr rfl⟩⟩
        · simp [hh, hr]
        · simp [hh, hr]
      | true =>
        obtain ⟨n, last, hn, ht, ho⟩ := ih (env.MainLoop true (env.HandleMessages s).2).2
        refine ⟨n + 1, last, Nat.succ_le_succ hn, ?_, ?_⟩
        · simp [hh, hr, ht, List.replicate_succ, OGL.iteration]
        · rcases ho with ⟨h1, h2⟩ | ⟨h1, h2, h3⟩
          · exact Or.inl ⟨by simp [hh, hr, h1], h2⟩
          · exact Or.inr ⟨by simp [hh, hr, h1], h2, by omega⟩

/-- A loop that has stopped stops in the same way with more fuel. -/
theorem OGL.runLoop_stable (env : OGL.Env σ) (fuel k : Nat) (s : σ)
    (h : (OGL.runLoop env fuel s).2.1 ≠ OGL.Outcome.running) :
    OGL.runLoop env (fuel + k) s = OGL.runLoop env fuel s := by
  induction fuel generalizing s with
  | zero => exact absurd rfl h
  | succ fuel ih =>
    rw [Nat.add_right_comm]
    unfold OGL.runLoop at h ⊢
    cases hh : (env.HandleMessages s).1 with
    | false => simp [hh]
    | true =>
      cases hr : (env.MainLoop true (env.HandleMessages s).2).1 with
      | false => simp [hh, hr]
      | true =>
        have h' : (OGL.runLoop env fuel (env.MainLoop true (env.HandleMessages s).2).2).2.1
            ≠ OGL.Outcome.running := by
          simpa [hh, hr] using h
        simp [hh, hr, ih _ h']

/-- The loop of `OGL::Run` in terms of what `HandleMessages` and `MainLoop`
return: there is an `n` such that in each of the iterations `0 .. n-1` both
return true, and then either `HandleMessages()` returns false, or it returns
true and `MainLoop(true)` returns false, or the fuel is used up (`n = fuel`);
the trace, the outcome and the final state are those of these calls. -/
theorem OGL.runLoop_spec (env : OGL.Env σ) (fuel : Nat) (s : σ) :
    ∃ n, n ≤ fuel
      ∧ (∀ j, j < n →
          (env.HandleMessages (OGL.loopState env j s)).1 = true
          ∧ (env.MainLoop true (env.HandleMessages (OGL.loopState env j s)).2).1 = true)
      ∧ (((env.HandleMessages (OGL.loopState env n s)).1 = false
            ∧ OGL.runLoop env fuel s
                = ((List.replicate n OGL.iteration).flatten ++ [OGL.Event.handleMessages false],
                   OGL.Outcome.returned, (env.HandleMessages (OGL.loopState env n s)).2))
          ∨ ((env.HandleMessages (OGL.loopState env n s)).1 = true
            ∧ (env.MainLoop true (env.HandleMessages (OGL.loopState env n s)).2).1 = false
            ∧ OGL.runLoop env fuel s
                = ((List.replicate n OGL.iteration).flatten
                    ++ [OGL.Event.handleMessages true, OGL.Event.mainLoop true false],
                   OGL.Outcome.returned,
                   (env.MainLoop true (env.HandleMessages (OGL.loopState env n s)).2).2))
          ∨ (n = fuel
            ∧ OGL.runLoop env fuel s
                = ((List.replicate n OGL.iteration).flatten, OGL.Outcome.running,
                   OGL.loopState env n s))) := by
  induction fuel generalizing s with
  | zero =>
    exact ⟨0, le_rfl, fun j hj => absurd hj (Nat.not_lt_zero j), Or.inr (Or.inr ⟨rfl, rfl⟩)⟩
  | succ fuel ih =>
    cases hh : (env.HandleMessages s).1 with
    | false =>
      refine ⟨0, Nat.zero_le _, fun j hj => absurd hj (Nat.not_lt_zero j), Or.inl ⟨hh, ?_⟩⟩
      simp [OGL.runLoop, OGL.loopState, hh]
    | true =>
      cases hr : (env.MainLoop true (env.HandleMessages s).2).1 with
      | false =>
        refine ⟨0, Nat.zero_le _, fun j hj => absurd hj (Nat.not_lt_zero j),
          Or.inr (Or.inl ⟨hh, hr, ?_⟩)⟩
        simp [OGL.runLoop, OGL.loopState, hh, hr]
      | true =>
        obtain ⟨n, hn, hfull, hend⟩ := ih (env.MainLoop true (env.HandleMessages s).2).2
        refine ⟨n + 1, Nat.succ_le_succ hn, ?_, ?_⟩
        · intro j hj
          rcases Nat.eq_zero_or_pos j with h0 | h0
          · subst h0
            exact ⟨hh, hr⟩
          · obtain ⟨j', rfl⟩ : ∃ j', j = j' + 1 := ⟨j - 1, by omega⟩
            exact hfull j' (by omega)
        · rcases hend with ⟨h1, h2⟩ | ⟨h1, h2, h3⟩ | ⟨h1, h2⟩
          · refine Or.inl ⟨h1, ?_⟩
            simp [OGL.runLoop, OGL.loopState, hh, hr, h2, List.replicate_succ, OGL.iteration]
          · refine Or.inr (Or.inl ⟨h1, h2, ?_⟩)
            simp [OGL.runLoop, OGL.loopState, hh, hr, h3, List.replicate_succ, OGL.iteration]
          · refine Or.inr (Or.inr ⟨by omega, ?_⟩)
            simp [OGL.runLoop, OGL.loopState, hh, hr, h2, List.replicate_succ, OGL.iteration]

/-- A run that ends by the fourth `MainLoop` call returning false. -/
theorem OGL.run_countdown :
    OGL.Run (OGL.countdown 3 10) 20 (0, 0)
      = ([OGL.Event.mainLoop false true] ++ OGL.iteration ++ OGL.iteration
          ++ [OGL.Event.handleMessages true, OGL.Event.mainLoop true false],
         OGL.Outcome.returned, (4, 3)) := by
  decide

end RunLemmas

section BuilderClaims

variable {F : Type} [LinearOrderedField F] [FloorRing F]

/-- C12 at the failing input: on a new model, 56 calls of `AddSolidColorBox`
all return (no assertion fails) and leave 1344 vertices and 2016 indices, and
2001 calls of `AddIndex` all return and leave 2001 indices: `numIndices`
exceeds the 2000 entries of `Indices`, because the assertion of `AddIndex`
tests `numVertices`. -/
theorem C12_index_array_overrun (E : Lib F) (rand : Nat → Nat) (x1 y1 z1 x2 y2 z2 : F)
    (c : Nat) (pos : Vector3 F) (fill : Nat) :
    (∃ m k, Scene.times (fun mk => mk.1.AddSolidColorBox E rand x1 y1 z1 x2 y2 z2 c mk.2) 56
          (Model.new pos fill, 0) = some (m, k)
        ∧ m.numVertices = 1344 ∧ m.numIndices = 2016 ∧ ¬ m.numIndices ≤ 2000)
      ∧ ∃ m, Scene.times (fun m => m.AddIndex 0) 2001 (Model.new pos fill) = some m
          ∧ m.numVertices = 0 ∧ m.numIndices = 2001 ∧ ¬ m.numIndices ≤ 2000 := by
  have hv : (Model.new pos fill).numVertices = 0 := rfl
  have hi : (Model.new pos fill).numIndices = 0 := rfl
  constructor
  · obtain ⟨m, k, e, v, i⟩ :=
      Model.boxes_ok E rand x1 y1 z1 x2 y2 z2 c 56 (Model.new pos fill) 0 (by rw [hv]; norm_num)
    exact ⟨m, k, e, by omega, by omega, by omega⟩
  · obtain ⟨m, e, v, i⟩ := Model.indices_ok 0 2001 (Model.new pos fill) (by rw [hv]; norm_num)
    exact ⟨m, e, by omega, by omega, by omega⟩

/-- C13: on a model with `n` vertices, `n + 24 < 2000`, `AddSolidColorBox`
returns, appends exactly 24 vertices and the 36 indices `CubeIndices[i] + n`;
every appended index lies in `[n, n + 24)`; for each face `f < 6` the six
indices `6 f .. 6 f + 5` are exactly the vertices `n + 4 f .. n + 4 f + 3`;
and if every index was below `numVertices` before the call, every index is
below `numVertices` after it. -/
theorem C13_box_quads (E : Lib F) (rand : Nat → Nat) (x1 y1 z1 x2 y2 z2 : F) (c : Nat)
    (m : Model F) (k : Nat) (h : m.numVertices + 24 < 2000) :
    ∃ m' vs, m.AddSolidColorBox E rand x1 y1 z1 x2 y2 z2 c k = some (m', k + 24)
      ∧ m'.Vertices = m.Vertices ++ vs ∧ vs.length = 24
      ∧ m'.numVertices = m.numVertices + 24
      ∧ m'.Indices = m.Indices ++ Model.CubeIndices.map (fun ci => ci + m.numVertices)
      ∧ (Model.CubeIndices.map fun ci => ci + m.numVertices).length = 36
      ∧ (∀ a ∈ Model.CubeIndices.map (fun ci => ci + m.numVertices),
          m.numVertices ≤ a ∧ a < m.numVertices + 24)
      ∧ (∀ f, f < 6 → ∀ a,
          (a ∈ ((Model.CubeIndices.map fun ci => ci + m.numVertices).drop (6 * f)).take 6
            ↔ m.numVertices + 4 * f ≤ a ∧ a < m.numVertices + 4 * f + 4))
      ∧ ((∀ a ∈ m.Indices, a < m.numVertices) → ∀ a ∈ m'.Indices, a < m'.numVertices) := by
  have hin : ∀ a ∈ Model.CubeIndices.map (fun ci => ci + m.numVertices),
      m.numVertices ≤ a ∧ a < m.numVertices + 24 := by
    intro a ha
    obtain ⟨ci, hci, rfl⟩ := List.mem_map.mp ha
    have := Model.cubeIndices_lt ci hci
    omega
  refine ⟨_, Model.boxVertices E rand c (Model.boxVert x1 y1 z1 x2 y2 z2) k,
    Model.AddSolidColorBox_eq E rand x1 y1 z1 x2 y2 z2 c m k h, rfl, ?_, ?_, rfl, rfl, hin, ?_, ?_⟩
  · rw [Model.boxVertices_length]
    rfl
  · simp only [Model.numVertices, List.length_append, Model.boxVertices_length]
    rfl
  · intro f hf a
    rw [← List.map_drop, ← List.map_take, List.mem_map]
    constructor
    · rintro ⟨b, hb, rfl⟩
      have hb24 : b < 24 :=
        Model.cubeIndices_lt b (List.mem_of_mem_drop (List.mem_of_mem_take hb))
      have := (Model.cubeIndices_faces f hf b hb24).mp hb
      omega
    · rintro ⟨h1, h2⟩
      refine ⟨a - m.numVertices, ?_, by omega⟩
      exact (Model.cubeIndices_faces f hf (a - m.numVertices) (by omega)).mpr (by omega)
  · intro hold a ha
    simp only [Model.numVertices, List.length_append, Model.boxVertices_length] at hold ⊢
    have hl : (Model.boxVert x1 y1 z1 x2 y2 z2).length = 24 := rfl
    rw [hl]
    rcases List.mem_append.mp ha with h1 | h1
    · have := hold a h1
      omega
    · have := (hin a h1).2
      simp only [Model.numVertices] at this
      exact this

/-- C13 on a new model: the first box of a mesh. -/
theorem C13_box_quads_witness :
    ∃ m' vs, (Model.new (⟨0, 0, 0⟩ : Vector3 ℚ) 1).AddSolidColorBox ratLib (fun n => n)
          (-10) (-10) (-10) 10 10 10 0xff808080 0 = some (m', 0 + 24)
      ∧ m'.Vertices = (Model.new (⟨0, 0, 0⟩ : Vector3 ℚ) 1).Vertices ++ vs ∧ vs.length = 24
      ∧ m'.numVertices = 0 + 24
      ∧ m'.Indices = (Model.new (⟨0, 0, 0⟩ : Vector3 ℚ) 1).Indices
          ++ Model.CubeIndices.map (fun ci => ci + 0)
      ∧ (Model.CubeIndices.map fun ci => ci + 0).length = 36
      ∧ (∀ a ∈ Model.CubeIndices.map (fun ci => ci + 0), 0 ≤ a ∧ a < 0 + 24)
      ∧ (∀ f, f < 6 → ∀ a,
          (a ∈ ((Model.CubeIndices.map fun ci => ci + 0).drop (6 * f)).take 6
            ↔ 0 + 4 * f ≤ a ∧ a < 0 + 4 * f + 4))
      ∧ ((∀ a ∈ (Model.new (⟨0, 0, 0⟩ : Vector3 ℚ) 1).Indices, a < 0) →
          ∀ a ∈ m'.Indices, a < m'.numVertices) :=
  C13_box_quads ratLib (fun n => n) (-10) (-10) (-10) 10 10 10 0xff808080
    (Model.new (⟨0, 0, 0⟩ : Vector3 ℚ) 1) 0 (by decide)

/-- C14: for `z1 ≠ z2`, on a model with room for 24 vertices, `AddColorPyramid`
and `AddSolidColorBox` with the same arguments both return; the box appends
its 24 corners, each with `z = z1` or `z = z2`, 12 of them with `z = z2`; the
pyramid appends, for each corner with `z = z2`, the position
`((x1+x2)/2, (y1+y2)/2, z2)`, and for each corner with `z = z1` the corner
itself; the texture coordinates and the indices are the same. -/
theorem C14_pyramid_squish (E : Lib F) (rand : Nat → Nat) (x1 y1 z1 x2 y2 z2 : F) (c : Nat)
    (m : Model F) (k : Nat) (hz : z1 ≠ z2) (h : m.numVertices + 24 < 2000) :
    ∃ mp mb vp vb,
      m.AddColorPyramid E rand x1 y1 z1 x2 y2 z2 c k = some (mp, k + 24)
      ∧ m.AddSolidColorBox E rand x1 y1 z1 x2 y2 z2 c k = some (mb, k + 24)
      ∧ mp.Vertices = m.Vertices ++ vp ∧ mb.Vertices = m.Vertices ++ vb
      ∧ vp.length = 24 ∧ vb.length = 24
      ∧ vb.map Vertex.Pos = (Model.boxVert x1 y1 z1 x2 y2 z2).map (fun row => row.1)
      ∧ (∀ p ∈ vb.map Vertex.Pos, p.z = z1 ∨ p.z = z2)
      ∧ ((vb.map Vertex.Pos).filter fun p => decide (p.z = z2)).length = 12
      ∧ vp.map Vertex.Pos
          = (vb.map Vertex.Pos).map
              (fun p => if p.z = z2 then ⟨(x1 + x2) / 2, (y1 + y2) / 2, z2⟩ else p)
      ∧ vp.map Vertex.U = vb.map Vertex.U ∧ vp.map Vertex.V = vb.map Vertex.V
      ∧ mp.Indices = mb.Indices := by
  have hl : (Model.boxVert x1 y1 z1 x2 y2 z2).length = 24 := rfl
  refine ⟨_, _, Model.boxVertices E rand c (Model.pyramidVert x1 y1 z1 x2 y2 z2) k,
    Model.boxVertices E rand c (Model.boxVert x1 y1 z1 x2 y2 z2) k,
    Model.AddColorPyramid_eq E rand x1 y1 z1 x2 y2 z2 c m k h,
    Model.AddSolidColorBox_eq E rand x1 y1 z1 x2 y2 z2 c m k h, rfl, rfl, ?_, ?_,
    Model.boxVertices_Pos _ _ _ _ _, ?_, ?_, ?_, ?_, ?_, rfl⟩
  · rw [Model.boxVertices_length, Model.pyramidVert_length]
  · rw [Model.boxVertices_length, hl]
  · rw [Model.boxVertices_Pos]
    intro p hp
    simp only [Model.boxVert, List.map_cons, List.map_nil, List.mem_cons, List.mem_singleton,
      List.not_mem_nil, or_false] at hp
    rcases hp with h | h | h | h | h | h | h | h | h | h | h | h | h | h | h | h | h | h | h
      | h | h | h | h | h <;> subst h <;> simp
  · rw [Model.boxVertices_Pos]
    simp [Model.boxVert, List.filter, hz]
  · rw [Model.boxVertices_Pos, Model.boxVertices_Pos]
    simp only [Model.pyramidVert, List.map_map]
    apply List.map_congr_left
    intro row _
    simp only [Function.comp]
    split_ifs with h1
    · simp only [h1, add_comm]
    · rfl
  · rw [Model.boxVertices_U, Model.boxVertices_U]
    simp only [Model.pyramidVert, List.map_map]
    apply List.map_congr_left
    intro row _
    simp only [Function.comp]
    split_ifs <;> rfl
  · rw [Model.boxVertices_V, Model.boxVertices_V]
    simp only [Model.pyramidVert, List.map_map]
    apply List.map_congr_left
    intro row _
    simp only [Function.comp]
    split_ifs <;> rfl

/-- C14 on a new model, for the box from `(-1,-1,0)` to `(1,1,2)`. -/
theorem C14_pyramid_squish_witness :
    ∃ mp mb vp vb,
      (Model.new (⟨0, 0, 0⟩ : Vector3 ℚ) 1).AddColorPyramid ratLib (fun n => n)
          (-1) (-1) 0 1 1 2 0xff808080 0 = some (mp, 0 + 24)
      ∧ (Model.new (⟨0, 0, 0⟩ : Vector3 ℚ) 1).AddSolidColorBox ratLib (fun n => n)
          (-1) (-1) 0 1 1 2 0xff808080 0 = some (mb, 0 + 24)
      ∧ mp.Vertices = (Model.new (⟨0, 0, 0⟩ : Vector3 ℚ) 1).Vertices ++ vp
      ∧ mb.Vertices = (Model.new (⟨0, 0, 0⟩ : Vector3 ℚ) 1).Vertices ++ vb
      ∧ vp.length = 24 ∧ vb.length = 24
      ∧ vb.map Vertex.Pos = (Model.boxVert (-1) (-1) 0 1 1 2).map (fun row => row.1)
      ∧ (∀ p ∈ vb.map Vertex.Pos, p.z = 0 ∨ p.z = 2)
      ∧ ((vb.map Vertex.Pos).filter fun p => decide (p.z = 2)).length = 12
      ∧ vp.map Vertex.Pos
          = (vb.map Vertex.Pos).map
              (fun p => if p.z = 2 then ⟨(-1 + 1) / 2, (-1 + 1) / 2, 2⟩ else p)
      ∧ vp.map Vertex.U = vb.map Vertex.U ∧ vp.map Vertex.V = vb.map Vertex.V
      ∧ mp.Indices = mb.Indices :=
  C14_pyramid_squish ratLib (fun n => n) (-1) (-1) 0 1 1 2 0xff808080
    (Model.new (⟨0, 0, 0⟩ : Vector3 ℚ) 1) 0 (by norm_num) (by decide)

end BuilderClaims

section FieldClaims

variable {F : Type} [LinearOrderedField F]

/-- C15 at the failing input: `Scene::Render` on one inactive arrow, every
`rand()` returning 500, leaves the arrow visible at `chgPos[1] = (-2,0,0)`, so
that `r = Pos - chgPos[1]` has `r.LengthSq() = 0` for source 1 in the next
frame update. -/
theorem C15_reactivated_on_source :
    ((Scene.Render ratLib Matrix4.identity Matrix4.identity (Scene.pool 1)
        (World.test (Model.arrowAt ⟨5, 0, 0⟩ 0) fun _ => 500)).2.heap 0).IsVisible = 1
      ∧ ((Scene.Render ratLib Matrix4.identity Matrix4.identity (Scene.pool 1)
          (World.test (Model.arrowAt ⟨5, 0, 0⟩ 0) fun _ => 500)).2.heap 0).Pos = Scene.chgPos 1
      ∧ (((Scene.Render ratLib Matrix4.identity Matrix4.identity (Scene.pool 1)
          (World.test (Model.arrowAt ⟨5, 0, 0⟩ 0) fun _ => 500)).2.heap 0).Pos
            - Scene.chgPos 1).LengthSq = 0 := by
  have h := Scene.Render_heap ratLib Matrix4.identity Matrix4.identity (Scene.pool 1)
    (World.test (Model.arrowAt (⟨5, 0, 0⟩ : Vector3 ℚ) 0) fun _ => 500) (Scene.pool_distinct 1) 0
    (by decide)
  have h0 : (Scene.pool 1).Models 0 = 0 := rfl
  have hr : (Scene.randf 500 : ℚ) = 0 := by norm_num [Scene.randf]
  rw [h0] at h
  have hp : ((Scene.Render ratLib Matrix4.identity Matrix4.identity (Scene.pool 1)
      (World.test (Model.arrowAt ⟨5, 0, 0⟩ 0) fun _ => 500)).2.heap 0).Pos = Scene.chgPos 1 := by
    rw [h]
    simp [World.test, Model.arrowAt, Model.new, Scene.spawn_Pos, hr, Vector3.Normalize,
      Vector3.scale, Vector3.add_def, Scene.chgPos_one]
  refine ⟨?_, hp, ?_⟩
  · rw [h]
    simp [World.test, Model.arrowAt, Model.new, Scene.spawn_IsVisible]
  · rw [hp]
    simp [Vector3.LengthSq, Vector3.sub_def]

/-- C17: in a pool of distinct objects, the draw calls one `Scene::Render`
appends are those of the slots in increasing order, one for every model that is
not an arrow (whatever its `IsVisible`) and for every arrow visible at the
start of the call, none for an arrow inactive at the start; every pool entry
that is drawn is drawn exactly once; and every draw call carries the matrix of
the `Pos`, `Scale` and `Rot` its model has after the call. -/
theorem C17_draw_list (E : Lib F) (view proj : Matrix4 F) (s : Scene) (w : World F)
    (hd : s.Distinct) :
    ∃ dl, (Scene.Render E view proj s w).2.drawn = w.drawn ++ dl
      ∧ dl.map DrawCall.model
          = ((List.range s.numModels).filter fun i =>
              decide ((w.heap (s.Models i)).IsArrow = 0
                ∨ (w.heap (s.Models i)).IsVisible ≠ 0)).map s.Models
      ∧ (∀ i, i < s.numModels →
          (dl.map DrawCall.model).count (s.Models i)
            = if (w.heap (s.Models i)).IsArrow = 0 ∨ (w.heap (s.Models i)).IsVisible ≠ 0
              then 1 else 0)
      ∧ ∀ d ∈ dl,
          d.viewOnly
            = (Matrix4.Translation ((Scene.Render E view proj s w).2.heap d.model).Pos).mul
                ((Matrix4.Scaling ((Scene.Render E view proj s w).2.heap d.model).Scale).mul
                  (Matrix4.ofQuat ((Scene.Render E view proj s w).2.heap d.model).Rot)) := by
  refine ⟨(List.range s.numModels).filterMap (Scene.drawOf E view proj s w),
    Scene.before_drawn E view proj s w hd s.numModels le_rfl,
    Scene.drawn_models E view proj s w _, ?_, ?_⟩
  · intro i hi
    rw [Scene.drawn_models, Scene.count_models s hd i hi _
      (fun j hj => List.mem_range.mp (List.mem_of_mem_filter hj)),
      List.count_eq_of_nodup ((List.nodup_range _).filter _)]
    simp only [List.mem_filter, List.mem_range, hi, true_and, decide_eq_true_eq]
  · intro d hdm
    obtain ⟨i, hir, hdo⟩ := List.mem_filterMap.mp hdm
    have hi := List.mem_range.mp hir
    rw [(Scene.drawOf_model E view proj s w i d hdo).1, Scene.Render_heap E view proj s w hd i hi]
    unfold Scene.drawOf at hdo
    split_ifs at hdo with ha hv
    · injection hdo with hdo
      rw [← hdo, if_pos ha, if_pos hv]
      exact (Scene.integrate_draw E view proj _ _).2
    · injection hdo with hdo
      rw [← hdo, if_neg ha]
      exact (Model.Render_draw _ view proj _).2.1

/-- C17 on a pool of three: the visible arrow of slot 0 and the model of slot 2
are drawn, in this order; the inactive arrow of slot 1 is not. -/
theorem C17_draw_list_witness :
    ∃ dl, (Scene.Render ratLib Matrix4.identity Matrix4.identity (Scene.pool 3)
          (World.mixed fun n => n)).2.drawn = [] ++ dl
      ∧ dl.map DrawCall.model = [0, 2] := by
  obtain ⟨dl, h1, h2, _⟩ := C17_draw_list ratLib Matrix4.identity Matrix4.identity
    (Scene.pool 3) (World.mixed fun n => n) (Scene.pool_distinct 3)
  exact ⟨dl, h1, h2.trans (by decide)⟩

end FieldClaims

section RunClaims

variable {σ : Type}

/-- C11: `OGL::Run` ends the process (message box, then `exit(-1)`) exactly
when the first call `MainLoop(false)` returns false, and then that call is the
only call of `MainLoop` or `HandleMessages` and the state is the one it left.
When it returns true, `Run` goes on from the state that call left, and there is
a number `n` of full iterations, in each of which `HandleMessages()` returns
true and then `MainLoop(true)` returns true, each call made in the state the
call before it left, followed by `Sleep(10)`; iteration `n` is the stop: either
`HandleMessages()` returns false there and `MainLoop` is not called again, or
`HandleMessages()` returns true and `MainLoop(true)` returns false; `Run` then
returns, without `exit`, in the state the last call left.  The loop is still
running only after `fuel` full iterations.  Conversely, if the first iteration
in which one of the two calls returns false is iteration `N` and `N < fuel`,
the run returns after exactly `N` full iterations with the stop of iteration
`N`; and a run that has ended is the same with more fuel. -/
theorem C11_run_control (env : OGL.Env σ) (fuel : Nat) (s : σ) :
    ((OGL.Run env fuel s).2.1 = OGL.Outcome.exited ↔ (env.MainLoop false s).1 = false)
      ∧ ((env.MainLoop false s).1 = false →
          OGL.Run env fuel s
            = ([OGL.Event.mainLoop false false,
                OGL.Event.messageBox "Oculus Rift not detected." "OculusRoomTiny",
                OGL.Event.exit (-1)],
               OGL.Outcome.exited, (env.MainLoop false s).2))
      ∧ ((env.MainLoop false s).1 = true →
          ∃ n, n ≤ fuel
            ∧ (∀ j, j < n →
                (env.HandleMessages (OGL.loopState env j (env.MainLoop false s).2)).1 = true
                ∧ (env.MainLoop true
                    (env.HandleMessages (OGL.loopState env j (env.MainLoop false s).2)).2).1
                    = true)
            ∧ (((env.HandleMessages (OGL.loopState env n (env.MainLoop false s).2)).1 = false
                  ∧ OGL.Run env fuel s
                      = (OGL.Event.mainLoop false true
                          :: ((List.replicate n OGL.iteration).flatten
                              ++ [OGL.Event.handleMessages false]),
                         OGL.Outcome.returned,
                         (env.HandleMessages
                            (OGL.loopState env n (env.MainLoop false s).2)).2))
                ∨ ((env.HandleMessages (OGL.loopState env n (env.MainLoop false s).2)).1 = true
                  ∧ (env.MainLoop true
                      (env.HandleMessages (OGL.loopState env n (env.MainLoop false s).2)).2).1
                      = false
                  ∧ OGL.Run env fuel s
                      = (OGL.Event.mainLoop false true
                          :: ((List.replicate n OGL.iteration).flatten
                              ++ [OGL.Event.handleMessages true,
                                  OGL.Event.mainLoop true false]),
                         OGL.Outcome.returned,
                         (env.MainLoop true
                            (env.HandleMessages
                              (OGL.loopState env n (env.MainLoop false s).2)).2).2))
                ∨ (n = fuel
                  ∧ OGL.Run env fuel s
                      = (OGL.Event.mainLoop false true
                          :: (List.replicate n OGL.iteration).flatten,
                         OGL.Outcome.running,
                         OGL.loopState env n (env.MainLoop false s).2))))
      ∧ ((env.MainLoop false s).1 = true →
          ∀ N, N < fuel →
            (∀ j, j < N →
                (env.HandleMessages (OGL.loopState env j (env.MainLoop false s).2)).1 = true
                ∧ (env.MainLoop true
                    (env.HandleMessages (OGL.loopState env j (env.MainLoop false s).2)).2).1
                    = true) →
            ((env.HandleMessages (OGL.loopState env N (env.MainLoop false s).2)).1 = false
              ∨ (env.MainLoop true
                  (env.HandleMessages (OGL.loopState env N (env.MainLoop false s).2)).2).1
                  = false) →
            (OGL.Run env fuel s).2.1 = OGL.Outcome.returned
            ∧ (OGL.Run env fuel s).1
                = OGL.Event.mainLoop false true
                    :: ((List.replicate N OGL.iteration).flatten
                        ++ (if (env.HandleMessages
                                  (OGL.loopState env N (env.MainLoop false s).2)).1 = true
                            then [OGL.Event.handleMessages true, OGL.Event.mainLoop true false]
                            else [OGL.Event.handleMessages false])))
      ∧ ((OGL.Run env fuel s).2.1 ≠ OGL.Outcome.running →
          ∀ k, OGL.Run env (fuel + k) s = OGL.Run env fuel s) := by
  have hrun : (env.MainLoop false s).1 = true →
      OGL.Run env fuel s
        = (OGL.Event.mainLoop false true :: (OGL.runLoop env fuel (env.MainLoop false s).2).1,
           (OGL.runLoop env fuel (env.MainLoop false s).2).2.1,
           (OGL.runLoop env fuel (env.MainLoop false s).2).2.2) := by
    intro hr
    simp [OGL.Run, OGL.VALIDATE, hr]
  obtain ⟨n, hn, hfull, hend⟩ := OGL.runLoop_spec env fuel (env.MainLoop false s).2
  cases hr : (env.MainLoop false s).1 with
  | false =>
    refine ⟨by simp [OGL.Run, OGL.VALIDATE, hr], fun _ => by simp [OGL.Run, OGL.VALIDATE, hr],
      fun h => absurd h (by simp), fun h => absurd h (by simp),
      fun _ k => by simp [OGL.Run, OGL.VALIDATE, hr]⟩
  | true =>
    have hspec : ((env.HandleMessages (OGL.loopState env n (env.MainLoop false s).2)).1 = false
          ∧ OGL.Run env fuel s
              = (OGL.Event.mainLoop false true
                  :: ((List.replicate n OGL.iteration).flatten
                      ++ [OGL.Event.handleMessages false]),
                 OGL.Outcome.returned,
                 (env.HandleMessages (OGL.loopState env n (env.MainLoop false s).2)).2))
        ∨ ((env.HandleMessages (OGL.loopState env n (env.MainLoop false s).2)).1 = true
          ∧ (env.MainLoop true
              (env.HandleMessages (OGL.loopState env n (env.MainLoop false s).2)).2).1 = false
          ∧ OGL.Run env fuel s
              = (OGL.Event.mainLoop false true
                  :: ((List.replicate n OGL.iteration).flatten
                      ++ [OGL.Event.handleMessages true, OGL.Event.mainLoop true false]),
                 OGL.Outcome.returned,
                 (env.MainLoop true
                    (env.HandleMessages (OGL.loopState env n (env.MainLoop false s).2)).2).2))
        ∨ (n = fuel
          ∧ OGL.Run env fuel s
              = (OGL.Event.mainLoop false true :: (List.replicate n OGL.iteration).flatten,
                 OGL.Outcome.running, OGL.loopState env n (env.MainLoop false s).2)) := by
      rcases hend with ⟨h1, h2⟩ | ⟨h1, h2, h3⟩ | ⟨h1, h2⟩
      · exact Or.inl ⟨h1, by rw [hrun hr, h2]⟩
      · exact Or.inr (Or.inl ⟨h1, h2, by rw [hrun hr, h3]⟩)
      · exact Or.inr (Or.inr ⟨h1, by rw [hrun hr, h2]⟩)
    refine ⟨?_, fun h => absurd h (by simp), fun _ => ⟨n, hn, hfull, hspec⟩, ?_, ?_⟩
    · rcases hspec with ⟨_, h2⟩ | ⟨_, _, h3⟩ | ⟨_, h2⟩
      · simp [h2]
      · simp [h3]
      · simp [h2]
    · intro _ N hN hNfull hNstop
      have hnN : n = N := by
        rcases Nat.lt_trichotomy n N with hlt | heq | hgt
        · exfalso
          have hf := hNfull n hlt
          rcases hspec with ⟨h1, _⟩ | ⟨_, h2, _⟩ | ⟨h1, _⟩
          · rw [hf.1] at h1
            exact Bool.noConfusion h1
          · rw [hf.2] at h2
            exact Bool.noConfusion h2
          · omega
        · exact heq
        · exfalso
          have hf := hfull N hgt
          rcases hNstop with h | h
          · rw [hf.1] at h
            exact Bool.noConfusion h
          · rw [hf.2] at h
            exact Bool.noConfusion h
      subst hnN
      rcases hspec with ⟨h1, h2⟩ | ⟨h1, _, h3⟩ | ⟨h1, _⟩
      · rw [h2]
        simp [h1]
      · rw [h3]
        simp [h1]
      · omega
    · intro h k
      have h' : (OGL.runLoop env fuel (env.MainLoop false s).2).2.1 ≠ OGL.Outcome.running := by
        rw [hrun hr] at h
        exact h
      rw [hrun hr]
      simp [OGL.Run, OGL.VALIDATE, hr, OGL.runLoop_stable env fuel k _ h']

end RunClaims

end EMVis
